import Mathlib

/-!
A verification development for the FsmRx transition engine
(src/classes/fsm-rx-inheritable/fsm-rx-inheritable.ts).

The embedding is parameterized over the custom state labels S and the
state payload type P: a TypeScript TStateData value is modelled as a
tagged record carrying its state label and a payload.  The RxJS
machinery is modelled operationally:

* the BehaviorSubject holding the committed value becomes the field
  committed (its value) plus the ghost field emitted (every value it
  has ever broadcast, replay seed first);
* the BehaviorSubject feeding the pipeline becomes the field
  lastSubmitted (its current value) plus the FIFO queue pending, which
  models the observeOn(queueScheduler) trampoline: a next call issued
  while the queue is draining is appended and processed only after the
  in-flight item settles;
* draining the scheduler queue is the fueled function drainAll;
* the initial emission of a freshly (re)built pipeline subject (kinds
  init, recover and override) is silently discarded by the pipeline
  filter (lines 380-408 of the source), so rebuilding only replaces
  lastSubmitted and clears the queue of the torn-down pipeline;
* hook callbacks are arbitrary functions returning a result
  (true, void, false, or a thrown exception) together with the list of
  re-entrant updateState and changeState calls they perform; they also
  receive the committed transition they would observe by subscribing
  to currentState, which reads the committed BehaviorSubject
  synchronously;
* deep-equal with the strict option on tagged state data is structural
  equality, modelled by decidable equality;
* Date.now timestamps and the mermaid diagram generator are outside
  the claims considered here and are omitted; debug-log entries keep
  every other field.

Ghost trace events (procBegin, procEnd, enqueued, canEnterFromChecked)
instrument execution for the temporal theorems; they correspond to no
observable output of the source and carry no influence on the machine
state.
-/

namespace FsmRx

/-- Transition kinds, from TransitionTypes in fsm-rx-types. -/
inductive TransitionType where
  | init
  | update
  | change
  | override
  | recover
  | reset
deriving DecidableEq

/-- Severities of a declared transition rejection. -/
inductive Severity where
  | warn
  | error
  | filteredUpdate
deriving DecidableEq

/-- Reasons a transition can be rejected with. -/
inductive RejectReason where
  | illegal_update_FSMInit
  | update_state_mismatch
  | repeat_update_filtered
  | terminated_by_update_callback
  | illegal_change_same_state
  | not_permitted_to_enter
  | not_permitted_to_leave
  | terminated_by_leave_callback
  | terminated_by_enter_callback
  | override_in_production
  | after_fsm_destroy
  | internal_error
deriving DecidableEq

/-- The lifecycle hooks of a state. -/
inductive HookKind where
  | onEnter
  | onLeave
  | onUpdate
deriving DecidableEq

/-- A custom (non-FSMInit) state data value: its state label and the
remaining payload fields. -/
structure TStateData (S P : Type) where
  state : S
  payload : P
deriving DecidableEq

/-- State data: either the reserved FSMInitStateData or custom data. -/
inductive StateData (S P : Type) where
  | fsmInit
  | custom (d : TStateData S P)
deriving DecidableEq

/-- The state label of a state-data value; none encodes FSMInit. -/
def stateTag {S P : Type} : StateData S P → Option S
  | .fsmInit => none
  | .custom d => some d.state

/-- A transition envelope, as fed to the pipeline and to the committed
subject. -/
structure StateTransition (S P : Type) where
  transitionType : TransitionType
  stateData : StateData S P
deriving DecidableEq

/-- An entry of a canLeaveToStates whitelist: a custom state or the
reserved FSMTerminate pseudo-target. -/
inductive LeaveTo (S : Type) where
  | terminate
  | toState (s : S)
deriving DecidableEq

/-- The state information handed to lifecycle hooks (leavingStateInfo,
enteringStateInfo, previousInfo, updateInfo).  none as the state label
encodes FSMInit. -/
structure StateInfo (S P : Type) where
  state : Option S
  stateData : StateData S P
  canUpdate : Bool
  canLeaveTo : List (LeaveTo S)
deriving DecidableEq

/-- The possible results of running a user hook callback: the returned
boolean, a void return, or an uncaught exception. -/
inductive HookResult where
  | retTrue
  | retVoid
  | retFalse
  | throws
deriving DecidableEq

/-- A re-entrant submission a hook may perform while running. -/
inductive HookSubmit (S P : Type) where
  | update (d : TStateData S P)
  | change (d : TStateData S P)
deriving DecidableEq

/-- Everything a hook invocation does: its result and the re-entrant
submissions it performed, in order. -/
structure HookOutcome (S P : Type) where
  result : HookResult
  submits : List (HookSubmit S P)
deriving DecidableEq

/-- The argument of an onLeave or onEnter hook.  The observed field is
the transition the hook would see by reading the committed subject
synchronously from inside the callback. -/
structure LeaveEnterChanges (S P : Type) where
  leavingStateInfo : StateInfo S P
  enteringStateInfo : StateInfo S P
  observed : StateTransition S P
deriving DecidableEq

/-- The argument of an onUpdate hook. -/
structure UpdateChanges (S P : Type) where
  previousInfo : StateInfo S P
  updateInfo : StateInfo S P
  observed : StateTransition S P
deriving DecidableEq

/-- Per-state metadata: the two whitelists and the optional hooks. -/
structure StateMetadata (S P : Type) where
  canEnterFromStates : List (Option S)
  canLeaveToStates : List (LeaveTo S)
  onEnter : Option (LeaveEnterChanges S P → HookOutcome S P) := none
  onLeave : Option (LeaveEnterChanges S P → HookOutcome S P) := none
  onUpdate : Option (UpdateChanges S P → HookOutcome S P) := none

/-- The state map: the declared states in declaration order (the
object keys) together with each state's metadata. -/
structure StateMap (S P : Type) where
  states : List S
  metadata : S → StateMetadata S P

/-- A dev-mode state override: the forced state data and whether an
onOverride callback is attached. -/
structure StateOverride (S P : Type) where
  stateData : TStateData S P
  onOverride : Bool
deriving DecidableEq

/-- The debugLogBufferCount configuration value: a natural number or
Infinity. -/
inductive LogBufferCount where
  | unbounded
  | fin (n : Nat)
deriving DecidableEq

/-- Whether the buffer count is strictly positive (Infinity counts as
positive). -/
def LogBufferCount.isPos : LogBufferCount → Bool
  | .unbounded => true
  | .fin n => decide (0 < n)

/-- The state diagram layout directions. -/
inductive DiagramDirection where
  | TB
  | LR
deriving DecidableEq

/-- The fully resolved configuration object. -/
structure FsmConfig (S P : Type) where
  outputTransitionRejectionToConsole : Bool
  filterRepeatUpdates : Bool
  stateOverride : Option (StateOverride S P)
  debugLogBufferCount : LogBufferCount
  stringifyLogTransitionData : Bool
  recordFilteredUpdatesToDebugLog : Bool
  resetDebugLogOnOverride : Bool
  recordResetDataToDebugLog : Bool
  stateDiagramDirection : DiagramDirection
  name : Option String
deriving DecidableEq

/-- The caller-supplied partial configuration: every field optional. -/
structure PartialFsmConfig (S P : Type) where
  outputTransitionRejectionToConsole : Option Bool := none
  filterRepeatUpdates : Option Bool := none
  stateOverride : Option (Option (StateOverride S P)) := none
  debugLogBufferCount : Option LogBufferCount := none
  stringifyLogTransitionData : Option Bool := none
  recordFilteredUpdatesToDebugLog : Option Bool := none
  resetDebugLogOnOverride : Option Bool := none
  recordResetDataToDebugLog : Option Bool := none
  stateDiagramDirection : Option DiagramDirection := none
  name : Option (Option String) := none

/-- The state-data column of a debug log entry: the raw data, its
stringified form (JSON.stringify modelled abstractly by remembering the
data that was stringified), or the empty string used for rejections
after destroy. -/
inductive LogStateData (S P : Type) where
  | raw (d : StateData S P)
  | stringified (d : StateData S P)
  | emptyString
deriving DecidableEq

/-- The result column of a debug log entry. -/
inductive LogResult where
  | success
  | override
  | recover
  | reset
  | unknownError
  | rejected (r : RejectReason)
deriving DecidableEq

/-- One debug log entry (the Date.now timestamp is omitted). -/
structure DebugLogEntry (S P : Type) where
  result : LogResult
  stateData : LogStateData S P
  transitionType : TransitionType
  message : String
deriving DecidableEq

/-- The data describing a declared rejection. -/
structure TransitionRejection where
  message : String
  errorSeverity : Severity
  rejectReason : RejectReason
  transitionType : TransitionType
deriving DecidableEq

/-- The rejection raised by filterUpdateFSMInit. -/
def trIllegalUpdateFSMInit : TransitionRejection :=
  ⟨"Cannot update when in the FSMInit state", .warn, .illegal_update_FSMInit, .update⟩

/-- The rejection raised by filterRepeatedStateUpdates. -/
def trRepeatUpdateFiltered : TransitionRejection :=
  ⟨"repeat update has been filtered out", .filteredUpdate, .repeat_update_filtered, .update⟩

/-- The rejection raised by filterUpdateStateMismatch. -/
def trUpdateStateMismatch : TransitionRejection :=
  ⟨"Mismatch when updating state", .warn, .update_state_mismatch, .update⟩

/-- The rejection raised when an onUpdate hook returns false. -/
def trTerminatedByUpdateCallback : TransitionRejection :=
  ⟨"update function returned false", .warn, .terminated_by_update_callback, .update⟩

/-- The rejection raised by filterChangeToSameState. -/
def trIllegalChangeSameState : TransitionRejection :=
  ⟨"Change to State must be different from the current state", .warn,
    .illegal_change_same_state, .change⟩

/-- The rejection raised by filterChangeToProhibitedState. -/
def trNotPermittedToLeave : TransitionRejection :=
  ⟨"Leaving is not allowed by the canLeaveToStates whitelist", .warn,
    .not_permitted_to_leave, .change⟩

/-- The rejection raised by filterChangeFromProhibitedState. -/
def trNotPermittedToEnter : TransitionRejection :=
  ⟨"Entering is not allowed by the canEnterFromStates whitelist", .warn,
    .not_permitted_to_enter, .change⟩

/-- The rejection raised when an onLeave hook returns false. -/
def trTerminatedByLeaveCallback : TransitionRejection :=
  ⟨"onLeave function returned false", .warn, .terminated_by_leave_callback, .change⟩

/-- The rejection raised when an onEnter hook returns false. -/
def trTerminatedByEnterCallback : TransitionRejection :=
  ⟨"onEnter function returned false", .warn, .terminated_by_enter_callback, .change⟩

/-- The rejection raised by overrideCurrentState outside dev mode. -/
def trOverrideInProduction : TransitionRejection :=
  ⟨"Override Current State can only be used in dev mode", .warn,
    .override_in_production, .override⟩

/-- Externally observable happenings plus ghost bookkeeping events.
procBegin carries the committed transition at the instant processing of
a queued request starts; enqueued fires when a submission is accepted
onto the pipeline queue; canEnterFromChecked is a ghost marker emitted
exactly when filterChangeFromProhibitedState consults a
canEnterFromStates whitelist. -/
inductive Event (S P : Type) where
  | enqueued (id : Nat)
  | procBegin (id : Nat) (snapshot : StateTransition S P)
  | procEnd (id : Nat)
  | nextChangeEmitted (leaving : Option S) (entering : S)
  | hookCalled (h : HookKind) (observed : StateTransition S P)
  | canEnterFromChecked (leaving : Option S) (entering : S)
  | overrideNotified
  | overrideHookCalled
  | committedEvt (t : StateTransition S P)
  | rejectedEvt (tr : TransitionRejection)
  | consoleOutput (sev : Severity)
  | unknownErrorEvt (failing : StateTransition S P)
  | destroyNotified
  | thrownToCaller
deriving DecidableEq

/-- How processing one queued request settled. -/
inductive Outcome where
  | committedOk
  | rejectedOut (r : RejectReason)
  | crashed
  | dropped
deriving DecidableEq

/-- The whole machine state.  committed models the stateData
BehaviorSubject value, lastSubmitted the pipeline BehaviorSubject
value, pending the queue of scheduled but not yet processed pipeline
deliveries, and debugLog the optional log array.  emitted and
logHistory are ghost histories; nextId numbers submissions for the
ghost trace. -/
structure Machine (S P : Type) where
  cfg : FsmConfig S P
  devMode : Bool
  stateMap : StateMap S P
  committed : StateTransition S P
  lastSubmitted : StateTransition S P
  debugLog : Option (List (DebugLogEntry S P))
  logHistory : List (DebugLogEntry S P)
  emitted : List (StateData S P)
  pending : List (Nat × StateTransition S P)
  nextId : Nat
  destroyed : Bool

variable {S P : Type} [DecidableEq S] [DecidableEq P]

/-- Resolution of the partial configuration against the defaults
(extractFsmConfig, lines 320-336). -/
def extractFsmConfig (p : PartialFsmConfig S P) (isInDevMode : Bool) : FsmConfig S P :=
  { outputTransitionRejectionToConsole :=
      if !isInDevMode then false else p.outputTransitionRejectionToConsole.getD true
    filterRepeatUpdates := p.filterRepeatUpdates.getD true
    stateOverride := if isInDevMode then p.stateOverride.getD none else none
    debugLogBufferCount :=
      p.debugLogBufferCount.getD (if isInDevMode then .unbounded else .fin 0)
    stringifyLogTransitionData :=
      p.stringifyLogTransitionData.getD (if isInDevMode then false else true)
    recordFilteredUpdatesToDebugLog := p.recordFilteredUpdatesToDebugLog.getD false
    resetDebugLogOnOverride :=
      if !isInDevMode then false else p.resetDebugLogOnOverride.getD true
    recordResetDataToDebugLog :=
      p.recordResetDataToDebugLog.getD (if isInDevMode then true else false)
    stateDiagramDirection := p.stateDiagramDirection.getD .TB
    name := p.name.getD none }

/-- The canLeaveToStatesArrays derivation (lines 157-170): the FSMInit
row collects every declared state whose canEnterFromStates whitelist
names FSMInit; every other row is the state's canLeaveToStates keys. -/
def canLeaveArrays (sm : StateMap S P) : Option S → List (LeaveTo S)
  | none =>
      (sm.states.filter (fun s => decide ((none : Option S) ∈ (sm.metadata s).canEnterFromStates))).map
        LeaveTo.toState
  | some s => (sm.metadata s).canLeaveToStates

/-- Front truncation to a maximum length (the slice in
capDebugLogLength, lines 354-359). -/
def capList (cap : LogBufferCount) (l : List (DebugLogEntry S P)) : List (DebugLogEntry S P) :=
  match cap with
  | .unbounded => l
  | .fin n => l.drop (l.length - n)

/-- The stringifyLogTransitionData transformation of an entry's
state-data column. -/
def stringifyLogStateData : LogStateData S P → LogStateData S P
  | .raw d => .stringified d
  | x => x

/-- Append an entry to the debug log when it exists, stringifying the
data when configured, then cap the length (writeToDebugLog, lines
343-348).  The ghost logHistory records every stored entry. -/
def writeToDebugLog (m : Machine S P) (entry : DebugLogEntry S P) : Machine S P :=
  match m.debugLog with
  | none => m
  | some log =>
    let entry1 :=
      if m.cfg.stringifyLogTransitionData then
        { entry with stateData := stringifyLogStateData entry.stateData }
      else entry
    { m with
      debugLog := some (capList m.cfg.debugLogBufferCount (log ++ [entry1]))
      logHistory := m.logHistory ++ [entry1] }

/-- Truncate the existing log to a cap (capDebugLogLength, lines
354-359). -/
def capDebugLogLength (m : Machine S P) (cap : LogBufferCount) : Machine S P :=
  match m.debugLog with
  | none => m
  | some log => { m with debugLog := some (capList cap log) }

/-- Declared rejection handling (handleTransitionRejection, lines
482-504): optional console output, the conditional log writes, then
the onTransitionRejected user hook (the rejectedEvt event). -/
def handleTransitionRejection (m : Machine S P) (tr : TransitionRejection) :
    Machine S P × List (Event S P) :=
  let consoleEvs : List (Event S P) :=
    if m.cfg.outputTransitionRejectionToConsole then
      match tr.errorSeverity with
      | .error => [.consoleOutput .error]
      | .warn => [.consoleOutput .warn]
      | .filteredUpdate => []
    else []
  let m1 :=
    if tr.rejectReason = .after_fsm_destroy then
      writeToDebugLog m
        { result := .rejected tr.rejectReason, stateData := .emptyString,
          transitionType := tr.transitionType, message := tr.message }
    else
      let ma :=
        if tr.errorSeverity ≠ .filteredUpdate ∨ m.cfg.recordFilteredUpdatesToDebugLog then
          writeToDebugLog m
            { result := .rejected tr.rejectReason, stateData := .raw m.lastSubmitted.stateData,
              transitionType := m.lastSubmitted.transitionType, message := tr.message }
        else m
      if tr.errorSeverity ≠ .filteredUpdate ∧ m.cfg.recordResetDataToDebugLog then
        writeToDebugLog ma
          { result := .reset, stateData := .raw m.committed.stateData,
            transitionType := .reset, message := "reset to current state" }
      else ma
  (m1, consoleEvs ++ [.rejectedEvt tr])

/-- A next call on the pipeline subject (the shared tail of
updateState and changeState, lines 1165-1221): rejected outright after
destroy, otherwise the value is stored and its delivery scheduled on
the queue. -/
def submitTransition (m : Machine S P) (t : StateTransition S P) (msg : String) :
    Machine S P × List (Event S P) :=
  if m.destroyed then
    handleTransitionRejection m
      { message := msg, errorSeverity := .warn, rejectReason := .after_fsm_destroy,
        transitionType := t.transitionType }
  else
    ({ m with
        lastSubmitted := t
        pending := m.pending ++ [(m.nextId, t)]
        nextId := m.nextId + 1 },
      [.enqueued m.nextId])

/-- Apply the re-entrant submissions a hook performed, in order. -/
def applySubmits (m : Machine S P) : List (HookSubmit S P) → Machine S P × List (Event S P)
  | [] => (m, [])
  | s :: rest =>
    let t : StateTransition S P :=
      match s with
      | .update d => { transitionType := .update, stateData := .custom d }
      | .change d => { transitionType := .change, stateData := .custom d }
    let r1 := submitTransition m t "hook submission"
    let r2 := applySubmits r1.1 rest
    (r2.1, r1.2 ++ r2.2)

/-- How a filter stage settled. -/
inductive FilterRes where
  | pass
  | fail (r : RejectReason)
  | threw
deriving DecidableEq

/-- Rejection of an update submitted while committed at FSMInit
(filterUpdateFSMInit, lines 453-466). -/
def filterUpdateFSMInit (m : Machine S P) : Machine S P × List (Event S P) × Bool :=
  match m.committed.stateData with
  | .fsmInit =>
    let r := handleTransitionRejection m trIllegalUpdateFSMInit
    (r.1, r.2, false)
  | .custom _ => (m, [], true)

/-- Rejection of an update whose data deep-equals the committed data,
when filterRepeatUpdates is on (filterRepeatedStateUpdates, lines
546-563). -/
def filterRepeatedStateUpdates (m : Machine S P) (t : StateTransition S P) :
    Machine S P × List (Event S P) × Bool :=
  if m.cfg.filterRepeatUpdates ∧ m.committed.stateData = t.stateData then
    let r := handleTransitionRejection m trRepeatUpdateFiltered
    (r.1, r.2, false)
  else (m, [], true)

/-- Rejection of an update whose state label differs from the
committed one (filterUpdateStateMismatch, lines 572-588). -/
def filterUpdateStateMismatch (m : Machine S P) (d : TStateData S P) :
    Machine S P × List (Event S P) × Bool :=
  if stateTag m.committed.stateData ≠ some d.state then
    let r := handleTransitionRejection m trUpdateStateMismatch
    (r.1, r.2, false)
  else (m, [], true)

/-- The argument built for an onUpdate hook (lines 616-633).  The
previousInfo label is the update state label, as in the source; the
mismatch filter has already ensured it equals the committed label. -/
def mkOnUpdateChanges (m : Machine S P) (d : TStateData S P) : UpdateChanges S P :=
  { previousInfo :=
      { state := some d.state, stateData := m.committed.stateData, canUpdate := true,
        canLeaveTo := canLeaveArrays m.stateMap (some d.state) }
    updateInfo :=
      { state := some d.state, stateData := .custom d, canUpdate := true,
        canLeaveTo := canLeaveArrays m.stateMap (some d.state) }
    observed := m.committed }

/-- Run the optional onUpdate hook (executeOnUpdateHookCallback, lines
608-649): a false return rejects the update, an exception escapes to
the subscriber. -/
def executeOnUpdateHookCallback (m : Machine S P) (d : TStateData S P) :
    Machine S P × List (Event S P) × FilterRes :=
  match (m.stateMap.metadata d.state).onUpdate with
  | none => (m, [], .pass)
  | some f =>
    let out := f (mkOnUpdateChanges m d)
    let r1 := applySubmits m out.submits
    let evs := Event.hookCalled .onUpdate m.committed :: r1.2
    match out.result with
    | .retFalse =>
      let r2 := handleTransitionRejection r1.1 trTerminatedByUpdateCallback
      (r2.1, evs ++ r2.2, .fail .terminated_by_update_callback)
    | .throws => (r1.1, evs, .threw)
    | _ => (r1.1, evs, .pass)

/-- The update path of the pipeline filter (updateFilter, lines
424-446). -/
def updateFilter (m : Machine S P) (t : StateTransition S P) (d : TStateData S P) :
    Machine S P × List (Event S P) × FilterRes :=
  match filterUpdateFSMInit m with
  | (m1, e1, false) => (m1, e1, .fail .illegal_update_FSMInit)
  | (m1, e1, true) =>
    match filterRepeatedStateUpdates m1 t with
    | (m2, e2, false) => (m2, e1 ++ e2, .fail .repeat_update_filtered)
    | (m2, e2, true) =>
      match filterUpdateStateMismatch m2 d with
      | (m3, e3, false) => (m3, e1 ++ e2 ++ e3, .fail .update_state_mismatch)
      | (m3, e3, true) =>
        match executeOnUpdateHookCallback m3 d with
        | (m4, e4, r) => (m4, e1 ++ e2 ++ e3 ++ e4, r)

/-- The argument built for an onLeave hook (lines 810-828). -/
def mkOnLeaveChanges (m : Machine S P) (p d : TStateData S P) : LeaveEnterChanges S P :=
  { leavingStateInfo :=
      { state := some p.state, stateData := .custom p, canUpdate := true,
        canLeaveTo := canLeaveArrays m.stateMap (some p.state) }
    enteringStateInfo :=
      { state := some d.state, stateData := .custom d, canUpdate := true,
        canLeaveTo := canLeaveArrays m.stateMap (some d.state) }
    observed := m.committed }

/-- Run the optional onLeave hook of the state being left
(executeOnLeaveHookCallback, lines 801-842). -/
def executeOnLeaveHookCallback (m : Machine S P) (p d : TStateData S P) :
    Machine S P × List (Event S P) × FilterRes :=
  match (m.stateMap.metadata p.state).onLeave with
  | none => (m, [], .pass)
  | some f =>
    let out := f (mkOnLeaveChanges m p d)
    let r1 := applySubmits m out.submits
    let evs := Event.hookCalled .onLeave m.committed :: r1.2
    match out.result with
    | .retFalse =>
      let r2 := handleTransitionRejection r1.1 trTerminatedByLeaveCallback
      (r2.1, evs ++ r2.2, .fail .terminated_by_leave_callback)
    | .throws => (r1.1, evs, .threw)
    | _ => (r1.1, evs, .pass)

/-- The argument built for an onEnter hook (lines 862-880).  The
leaving side reads the committed transition, which may still be
FSMInit. -/
def mkOnEnterChanges (m : Machine S P) (d : TStateData S P) : LeaveEnterChanges S P :=
  { leavingStateInfo :=
      { state := stateTag m.committed.stateData, stateData := m.committed.stateData,
        canUpdate := (stateTag m.committed.stateData).isSome,
        canLeaveTo := canLeaveArrays m.stateMap (stateTag m.committed.stateData) }
    enteringStateInfo :=
      { state := some d.state, stateData := .custom d, canUpdate := true,
        canLeaveTo := canLeaveArrays m.stateMap (some d.state) }
    observed := m.committed }

/-- Run the optional onEnter hook of the target state
(executeOnEnterHookCallback, lines 854-895). -/
def executeOnEnterHookCallback (m : Machine S P) (d : TStateData S P) :
    Machine S P × List (Event S P) × FilterRes :=
  match (m.stateMap.metadata d.state).onEnter with
  | none => (m, [], .pass)
  | some f =>
    let out := f (mkOnEnterChanges m d)
    let r1 := applySubmits m out.submits
    let evs := Event.hookCalled .onEnter m.committed :: r1.2
    match out.result with
    | .retFalse =>
      let r2 := handleTransitionRejection r1.1 trTerminatedByEnterCallback
      (r2.1, evs ++ r2.2, .fail .terminated_by_enter_callback)
    | .throws => (r1.1, evs, .threw)
    | _ => (r1.1, evs, .pass)

/-- The change path of the pipeline filter (changeFilter, lines
659-700): the same-state filter, then either the canLeaveToStates
check plus the onLeave hook (leaving a custom state) or the
canEnterFromStates check (leaving FSMInit), each preceded by the
pre-commit leaving and entering notification, then the onEnter hook.
The internal_error guard of the source is unreachable here because the
FSMInit-tagged data was already discarded by the pipeline filter. -/
def changeFilter (m : Machine S P) (d : TStateData S P) :
    Machine S P × List (Event S P) × FilterRes :=
  if stateTag m.committed.stateData = some d.state then
    let r := handleTransitionRejection m trIllegalChangeSameState
    (r.1, r.2, .fail .illegal_change_same_state)
  else
    match m.committed.stateData with
    | .custom p =>
      if LeaveTo.toState d.state ∈ (m.stateMap.metadata p.state).canLeaveToStates then
        let e0 : List (Event S P) := [.nextChangeEmitted (some p.state) d.state]
        match executeOnLeaveHookCallback m p d with
        | (m1, e1, .pass) =>
          match executeOnEnterHookCallback m1 d with
          | (m2, e2, r) => (m2, e0 ++ e1 ++ e2, r)
        | (m1, e1, r) => (m1, e0 ++ e1, r)
      else
        let r := handleTransitionRejection m trNotPermittedToLeave
        (r.1, r.2, .fail .not_permitted_to_leave)
    | .fsmInit =>
      if (none : Option S) ∈ (m.stateMap.metadata d.state).canEnterFromStates then
        let e0 : List (Event S P) :=
          [.canEnterFromChecked none d.state, .nextChangeEmitted none d.state]
        match executeOnEnterHookCallback m d with
        | (m2, e2, r) => (m2, e0 ++ e2, r)
      else
        let r := handleTransitionRejection m trNotPermittedToEnter
        (r.1, Event.canEnterFromChecked none d.state :: r.2, .fail .not_permitted_to_enter)

/-- A successful transition reaching the subscriber (lines 914-918):
the success log entry, then the next call on the committed subject. -/
def commitTransition (m : Machine S P) (t : StateTransition S P) :
    Machine S P × List (Event S P) :=
  let m1 := writeToDebugLog m
    { result := .success, stateData := .raw t.stateData,
      transitionType := t.transitionType, message := "success" }
  ({ m1 with committed := t, emitted := m1.emitted ++ [t.stateData] },
    [.committedEvt t])

/-- Tear down the pipeline subject and rebuild it seeded with the
reset data retagged recover (resetInternalObservables, lines 969-983).
Deliveries still queued for the torn-down pipeline are cancelled, and
the fresh subject's initial recover emission is silently discarded by
the filter, so only lastSubmitted and pending change, plus the
optional recover log entry. -/
def resetInternalObservables (m : Machine S P) (resetData : StateTransition S P)
    (logReset : Bool) : Machine S P :=
  let m1 := { m with
    lastSubmitted := { transitionType := .recover, stateData := resetData.stateData }
    pending := [] }
  if logReset then
    writeToDebugLog m1
      { result := .recover, stateData := .raw resetData.stateData,
        transitionType := .recover, message := "recover to committed state" }
  else m1

/-- Unknown-error handling on an exception escaping a hook
(handleUnknownError, lines 930-940): unconditional console output, the
unknown_error log entry naming the pipeline subject's current value,
the pipeline rebuild rooted at the committed value, then the
onUnknownError user hook. -/
def handleUnknownError (m : Machine S P) : Machine S P × List (Event S P) :=
  let failing := m.lastSubmitted
  let m1 := writeToDebugLog m
    { result := .unknownError, stateData := .raw failing.stateData,
      transitionType := failing.transitionType, message := "unknown error" }
  let m2 := resetInternalObservables m1 m.committed m.cfg.recordResetDataToDebugLog
  (m2, [.consoleOutput .error] ++ [.unknownErrorEvt failing])

/-- Assemble the outcome of one queued request from its filter result:
commit on pass, nothing further on a declared rejection, unknown-error
handling on an exception. -/
def finishProcess (m1 : Machine S P) (i : Nat) (t : StateTransition S P)
    (first : Event S P) (evs : List (Event S P)) :
    FilterRes → Machine S P × List (Event S P) × Outcome
  | .pass =>
    let r := commitTransition m1 t
    (r.1, first :: evs ++ r.2 ++ [.procEnd i], .committedOk)
  | .fail r => (m1, first :: evs ++ [.procEnd i], .rejectedOut r)
  | .threw =>
    let r := handleUnknownError m1
    (r.1, first :: evs ++ r.2 ++ [.procEnd i], .crashed)

/-- Process one delivery of the pipeline (the filter of
createStateTransitionObservable, lines 368-414, together with the
subscriber of lines 912-923).  The withLatestFrom previous value is
the committed transition at delivery time.  FSMInit-tagged data and
the init, override, recover and reset kinds are discarded without any
effect. -/
def processOne (m : Machine S P) (i : Nat) (t : StateTransition S P) :
    Machine S P × List (Event S P) × Outcome :=
  let first : Event S P := .procBegin i m.committed
  match t.stateData with
  | .fsmInit => (m, [first, .procEnd i], .dropped)
  | .custom d =>
    match t.transitionType with
    | .update =>
      match updateFilter m t d with
      | (m1, evs, r) => finishProcess m1 i t first evs r
    | .change =>
      match changeFilter m d with
      | (m1, evs, r) => finishProcess m1 i t first evs r
    | _ => (m, [first, .procEnd i], .dropped)

/-- Drain the scheduler queue: process scheduled deliveries one at a
time, in order, each one running to completion before the next starts.
The fuel bounds the number of drained items; a hook that re-submits on
every invocation loops forever in the source too. -/
def drainAll : Nat → Machine S P → Machine S P × List (Event S P)
  | 0, m => (m, [])
  | Nat.succ fuel, m =>
    match m.pending with
    | [] => (m, [])
    | (i, t) :: rest =>
      let r1 := processOne { m with pending := rest } i t
      let r2 := drainAll fuel r1.1
      (r2.1, r1.2.1 ++ r2.2)

/-- An external interaction with the machine. -/
inductive FsmOp (S P : Type) where
  | submitUpdate (d : TStateData S P)
  | submitChange (d : TStateData S P)
  | overrideOp (o : StateOverride S P) (resetLog : Bool)
  | destroyOp

/-- Whether an operation is an override call. -/
def FsmOp.isOverride : FsmOp S P → Bool
  | .overrideOp _ _ => true
  | _ => false

/-- Run one external operation.  updateState and changeState (lines
1165-1221) reject after destroy without reaching the pipeline;
otherwise the submission is scheduled and, the scheduler queue being
idle at an external call, drained to completion.  overrideCurrentState
(lines 1110-1141) is rejected outside dev mode; in dev mode after
destroy the next call on the completed override subject throws to the
caller before any effect; otherwise it notifies, rebuilds the pipeline
rooted at the override data, optionally clears the log, logs the
override, commits the override value, and runs the optional onOverride
callback.  destroy (lines 945-962) completes every subject; a second
destroy throws on the already unsubscribed subjects. -/
def runOp (fuel : Nat) (m : Machine S P) : FsmOp S P → Machine S P × List (Event S P)
  | .submitUpdate d =>
    let t : StateTransition S P := { transitionType := .update, stateData := .custom d }
    if m.destroyed then
      submitTransition m t "Attempted to call updateState after destroy was called"
    else
      let r1 := submitTransition m t "update"
      let r2 := drainAll fuel r1.1
      (r2.1, r1.2 ++ r2.2)
  | .submitChange d =>
    let t : StateTransition S P := { transitionType := .change, stateData := .custom d }
    if m.destroyed then
      submitTransition m t "Attempted to call changeState after destroy was called"
    else
      let r1 := submitTransition m t "change"
      let r2 := drainAll fuel r1.1
      (r2.1, r1.2 ++ r2.2)
  | .overrideOp o resetLog =>
    if !m.devMode then
      handleTransitionRejection m trOverrideInProduction
    else if m.destroyed then (m, [.thrownToCaller])
    else
      let ot : StateTransition S P :=
        { transitionType := .override, stateData := .custom o.stateData }
      let m1 := resetInternalObservables m ot false
      let m2 := if resetLog then capDebugLogLength m1 (.fin 0) else m1
      let m3 := writeToDebugLog m2
        { result := .override, stateData := .raw (.custom o.stateData),
          transitionType := .override, message := "override to new state" }
      let m4 := { m3 with committed := ot, emitted := m3.emitted ++ [ot.stateData] }
      let e3 : List (Event S P) := if o.onOverride then [.overrideHookCalled] else []
      (m4, [Event.overrideNotified, Event.committedEvt ot] ++ e3)
  | .destroyOp =>
    if m.destroyed then (m, [.thrownToCaller])
    else ({ m with destroyed := true }, [.destroyNotified])

/-- Run a sequence of external operations. -/
def runOps (fuel : Nat) (m : Machine S P) : List (FsmOp S P) → Machine S P × List (Event S P)
  | [] => (m, [])
  | op :: rest =>
    let r1 := runOp fuel m op
    let r2 := runOps fuel r1.1 rest
    (r2.1, r1.2 ++ r2.2)

/-- Construction (lines 266-311): resolve the configuration, seed both
subjects with the override data or FSMInit, create the log and its
first entry when the buffer count is positive, build the pipeline
(whose initial emission the filter silently discards), and schedule
the onOverride callback when configured. -/
def construct (sm : StateMap S P) (pcfg : PartialFsmConfig S P) (dev : Bool) :
    Machine S P × List (Event S P) :=
  let cfg := extractFsmConfig pcfg dev
  let seed : StateTransition S P :=
    match cfg.stateOverride with
    | some o => { transitionType := .override, stateData := .custom o.stateData }
    | none => { transitionType := .init, stateData := .fsmInit }
  let m0 : Machine S P :=
    { cfg := cfg, devMode := dev, stateMap := sm
      committed := seed, lastSubmitted := seed
      debugLog := if cfg.debugLogBufferCount.isPos then some [] else none
      logHistory := [], emitted := [seed.stateData]
      pending := [], nextId := 0, destroyed := false }
  let m1 := writeToDebugLog m0
    { result := match cfg.stateOverride with | some _ => .override | none => .success
      stateData := .raw seed.stateData, transitionType := seed.transitionType
      message := match cfg.stateOverride with | some _ => "override to state" | none => "success" }
  (m1,
    match cfg.stateOverride with
    | some o => if o.onOverride then [Event.overrideHookCalled] else []
    | none => [])

/-! Concrete demonstration fixtures used by witnesses and
counterexamples: a three-state machine with the transition graph
FSMInit to a, a to b, b to c, c to FSMTerminate, mirroring the
scenario of the specification. -/

/-- Demonstration state labels. -/
inductive DS where
  | a
  | b
  | c
deriving DecidableEq

/-- Demonstration metadata for state a. -/
def mdDA : StateMetadata DS Nat :=
  { canEnterFromStates := [none], canLeaveToStates := [.toState .b] }

/-- Demonstration metadata for state b. -/
def mdDB : StateMetadata DS Nat :=
  { canEnterFromStates := [some .a], canLeaveToStates := [.toState .c] }

/-- Demonstration metadata for state c. -/
def mdDC : StateMetadata DS Nat :=
  { canEnterFromStates := [some .b], canLeaveToStates := [.terminate] }

/-- The demonstration state map. -/
def demoMap : StateMap DS Nat :=
  { states := [.a, .b, .c]
    metadata := fun s => match s with | .a => mdDA | .b => mdDB | .c => mdDC }

/-- An empty partial configuration. -/
def demoCfg : PartialFsmConfig DS Nat := {}

/-- Demonstration state data values. -/
def da1 : TStateData DS Nat := ⟨.a, 1⟩

/-- A second payload for state a. -/
def da2 : TStateData DS Nat := ⟨.a, 2⟩

/-- Demonstration data for state b. -/
def db5 : TStateData DS Nat := ⟨.b, 5⟩

/-- Demonstration data for state c. -/
def dc9 : TStateData DS Nat := ⟨.c, 9⟩

/-- A demonstration rejection record. -/
def trDemo : TransitionRejection :=
  { message := "m", errorSeverity := .warn, rejectReason := .illegal_update_FSMInit,
    transitionType := .update }


/-- The machine state right after an external submission on an idle,
non-destroyed machine: the pipeline subject holds the new value and
its single delivery is about to be processed. -/
def submitIdle (m : Machine S P) (t : StateTransition S P) : Machine S P :=
  { m with lastSubmitted := t, pending := [], nextId := m.nextId + 1 }

/-- Whether an event is a declared rejection carrying the given
reason. -/
def isRejectedWith (r : RejectReason) : Event S P → Bool
  | .rejectedEvt tr => decide (tr.rejectReason = r)
  | _ => false

/-- A hook callback that returns void and performs no submission. -/
def hookVoid : LeaveEnterChanges DS Nat → HookOutcome DS Nat := fun _ => ⟨.retVoid, []⟩

/-- A hook callback that returns false. -/
def hookFalse : LeaveEnterChanges DS Nat → HookOutcome DS Nat := fun _ => ⟨.retFalse, []⟩

/-- The demonstration map with an onLeave hook on a and an onEnter
hook on b, both accepting. -/
def smC4 : StateMap DS Nat :=
  { states := [.a, .b, .c]
    metadata := fun s => match s with
      | .a => { mdDA with onLeave := some hookVoid }
      | .b => { mdDB with onEnter := some hookVoid }
      | .c => mdDC }

/-- The demonstration map whose onLeave hook on a returns false. -/
def smC4b : StateMap DS Nat :=
  { states := [.a, .b, .c]
    metadata := fun s => match s with
      | .a => { mdDA with onLeave := some hookFalse }
      | .b => { mdDB with onEnter := some hookVoid }
      | .c => mdDC }

/-- A dev machine resting in state a. -/
def mC5 : Machine DS Nat :=
  (runOps 5 (construct demoMap demoCfg true).1 [.submitChange da1]).1

/-- The smC4 machine resting in state a. -/
def mC4 : Machine DS Nat :=
  (runOps 5 (construct smC4 demoCfg true).1 [.submitChange da1]).1

/-- The smC4b machine resting in state a. -/
def mC4b : Machine DS Nat :=
  (runOps 5 (construct smC4b demoCfg true).1 [.submitChange da1]).1

/-- A hook callback that throws. -/
def hookThrow : LeaveEnterChanges DS Nat → HookOutcome DS Nat := fun _ => ⟨.throws, []⟩

/-- The demonstration map whose onEnter hook on b throws. -/
def smC2 : StateMap DS Nat :=
  { states := [.a, .b, .c]
    metadata := fun s => match s with
      | .a => mdDA
      | .b => { mdDB with onEnter := some hookThrow }
      | .c => mdDC }

/-- The smC2 machine resting in state a. -/
def mC2 : Machine DS Nat :=
  (runOps 5 (construct smC2 demoCfg true).1 [.submitChange da1]).1

/-- The debug-log invariant: the log exists exactly when the
configured buffer count is positive, it is always a suffix of the
ghost append history (its entries are the most recently stored ones in
order), and its length never exceeds a finite buffer count. -/
def LogInv (m : Machine S P) : Prop :=
  m.debugLog.isSome = m.cfg.debugLogBufferCount.isPos ∧
  (m.debugLog = none → m.logHistory = []) ∧
  ∀ l, m.debugLog = some l →
    l <:+ m.logHistory ∧
    ∀ k, m.cfg.debugLogBufferCount = .fin k → l.length ≤ k

/-- The committed-stream invariant: the ghost emission history ends at
the committed value and never holds two consecutive equal entries. -/
def EmitInv (m : Machine S P) : Prop :=
  m.emitted.getLast? = some m.committed.stateData ∧
  List.Chain' (fun a b => a ≠ b) m.emitted


/-- One step of the serialization checker over the ghost trace.  The
checker state is the currently open processing block, as the id and
committed snapshot its procBegin event carried, together with the ids
already announced by an enqueued event.  A procBegin is legal only
when no block is open and the id was enqueued earlier; a procEnd must
close the open block; a hookCalled inside a block must observe exactly
the snapshot the block opened with; any other event passes through. -/
def serStep (st : Option (Nat × StateTransition S P) × List Nat) (e : Event S P) :
    Option (Option (Nat × StateTransition S P) × List Nat) :=
  match e, st.1 with
  | .enqueued i, _ => some (st.1, st.2 ++ [i])
  | .procBegin i snap, none => if i ∈ st.2 then some (some (i, snap), st.2) else none
  | .procBegin _ _, some _ => none
  | .procEnd i, some (j, _) => if i = j then some (none, st.2) else none
  | .procEnd _, none => none
  | .hookCalled _ obs, some (j, snap) =>
    if obs = snap then some (some (j, snap), st.2) else none
  | .hookCalled _ _, none => none
  | _, _ => some st

/-- Run the serialization checker over a whole trace; none means some
event violated serialized processing. -/
def serRun : Option (Nat × StateTransition S P) × List Nat → List (Event S P) →
    Option (Option (Nat × StateTransition S P) × List Nat)
  | st, [] => some st
  | st, e :: rest =>
    match serStep st e with
    | none => none
    | some st2 => serRun st2 rest

/-- Whole-trace acceptance: from no open block and no seen id, the
checker accepts the trace and finishes with no block open. -/
def serOk (tr : List (Event S P)) : Bool :=
  match serRun (none, []) tr with
  | some (none, _) => true
  | _ => false

/-- Events the serialization checker lets through without a check. -/
def Event.serNeutral : Event S P → Bool
  | .enqueued _ => false
  | .procBegin _ _ => false
  | .procEnd _ => false
  | .hookCalled _ _ => false
  | _ => true

/-- Every queued delivery's id has been announced by an enqueued event
recorded in the checker's seen list. -/
def PendSeen (m : Machine S P) (seen : List Nat) : Prop :=
  ∀ p ∈ m.pending, p.1 ∈ seen

/-! Basic preservation lemmas: which machine fields each engine
function can touch. -/

@[simp] theorem writeToDebugLog_committed (m : Machine S P) (e : DebugLogEntry S P) :
    (writeToDebugLog m e).committed = m.committed := by
  unfold writeToDebugLog; split <;> rfl

@[simp] theorem writeToDebugLog_lastSubmitted (m : Machine S P) (e : DebugLogEntry S P) :
    (writeToDebugLog m e).lastSubmitted = m.lastSubmitted := by
  unfold writeToDebugLog; split <;> rfl

@[simp] theorem writeToDebugLog_pending (m : Machine S P) (e : DebugLogEntry S P) :
    (writeToDebugLog m e).pending = m.pending := by
  unfold writeToDebugLog; split <;> rfl

@[simp] theorem writeToDebugLog_nextId (m : Machine S P) (e : DebugLogEntry S P) :
    (writeToDebugLog m e).nextId = m.nextId := by
  unfold writeToDebugLog; split <;> rfl

@[simp] theorem writeToDebugLog_destroyed (m : Machine S P) (e : DebugLogEntry S P) :
    (writeToDebugLog m e).destroyed = m.destroyed := by
  unfold writeToDebugLog; split <;> rfl

@[simp] theorem writeToDebugLog_emitted (m : Machine S P) (e : DebugLogEntry S P) :
    (writeToDebugLog m e).emitted = m.emitted := by
  unfold writeToDebugLog; split <;> rfl

@[simp] theorem writeToDebugLog_cfg (m : Machine S P) (e : DebugLogEntry S P) :
    (writeToDebugLog m e).cfg = m.cfg := by
  unfold writeToDebugLog; split <;> rfl

@[simp] theorem writeToDebugLog_stateMap (m : Machine S P) (e : DebugLogEntry S P) :
    (writeToDebugLog m e).stateMap = m.stateMap := by
  unfold writeToDebugLog; split <;> rfl

@[simp] theorem writeToDebugLog_devMode (m : Machine S P) (e : DebugLogEntry S P) :
    (writeToDebugLog m e).devMode = m.devMode := by
  unfold writeToDebugLog; split <;> rfl

@[simp] theorem capDebugLogLength_committed (m : Machine S P) (c : LogBufferCount) :
    (capDebugLogLength m c).committed = m.committed := by
  unfold capDebugLogLength; split <;> rfl

@[simp] theorem capDebugLogLength_lastSubmitted (m : Machine S P) (c : LogBufferCount) :
    (capDebugLogLength m c).lastSubmitted = m.lastSubmitted := by
  unfold capDebugLogLength; split <;> rfl

@[simp] theorem capDebugLogLength_pending (m : Machine S P) (c : LogBufferCount) :
    (capDebugLogLength m c).pending = m.pending := by
  unfold capDebugLogLength; split <;> rfl

@[simp] theorem capDebugLogLength_nextId (m : Machine S P) (c : LogBufferCount) :
    (capDebugLogLength m c).nextId = m.nextId := by
  unfold capDebugLogLength; split <;> rfl

@[simp] theorem capDebugLogLength_destroyed (m : Machine S P) (c : LogBufferCount) :
    (capDebugLogLength m c).destroyed = m.destroyed := by
  unfold capDebugLogLength; split <;> rfl

@[simp] theorem capDebugLogLength_emitted (m : Machine S P) (c : LogBufferCount) :
    (capDebugLogLength m c).emitted = m.emitted := by
  unfold capDebugLogLength; split <;> rfl

@[simp] theorem capDebugLogLength_cfg (m : Machine S P) (c : LogBufferCount) :
    (capDebugLogLength m c).cfg = m.cfg := by
  unfold capDebugLogLength; split <;> rfl

@[simp] theorem capDebugLogLength_stateMap (m : Machine S P) (c : LogBufferCount) :
    (capDebugLogLength m c).stateMap = m.stateMap := by
  unfold capDebugLogLength; split <;> rfl

@[simp] theorem capDebugLogLength_devMode (m : Machine S P) (c : LogBufferCount) :
    (capDebugLogLength m c).devMode = m.devMode := by
  unfold capDebugLogLength; split <;> rfl

/-- LogOnly m mNew means mNew differs from m at most in the debug log
and its ghost history. -/
structure LogOnly (m mNew : Machine S P) : Prop where
  cfg : mNew.cfg = m.cfg
  devMode : mNew.devMode = m.devMode
  stateMap : mNew.stateMap = m.stateMap
  committed : mNew.committed = m.committed
  lastSubmitted : mNew.lastSubmitted = m.lastSubmitted
  pending : mNew.pending = m.pending
  nextId : mNew.nextId = m.nextId
  destroyed : mNew.destroyed = m.destroyed
  emitted : mNew.emitted = m.emitted

theorem LogOnly.baseL (m : Machine S P) : LogOnly m m :=
  ⟨Eq.refl _, Eq.refl _, Eq.refl _, Eq.refl _, Eq.refl _, Eq.refl _, Eq.refl _, Eq.refl _, Eq.refl _⟩

theorem LogOnly.compL {m1 m2 m3 : Machine S P} (a : LogOnly m1 m2) (b : LogOnly m2 m3) :
    LogOnly m1 m3 :=
  ⟨b.cfg.trans a.cfg, b.devMode.trans a.devMode, b.stateMap.trans a.stateMap,
    b.committed.trans a.committed, b.lastSubmitted.trans a.lastSubmitted,
    b.pending.trans a.pending, b.nextId.trans a.nextId,
    b.destroyed.trans a.destroyed, b.emitted.trans a.emitted⟩

theorem writeToDebugLog_logOnly (m : Machine S P) (e : DebugLogEntry S P) :
    LogOnly m (writeToDebugLog m e) :=
  ⟨by simp, by simp, by simp, by simp, by simp, by simp, by simp, by simp, by simp⟩

theorem capDebugLogLength_logOnly (m : Machine S P) (c : LogBufferCount) :
    LogOnly m (capDebugLogLength m c) :=
  ⟨by simp, by simp, by simp, by simp, by simp, by simp, by simp, by simp, by simp⟩

theorem handleTransitionRejection_logOnly (m : Machine S P) (tr : TransitionRejection) :
    LogOnly m (handleTransitionRejection m tr).1 := by
  unfold handleTransitionRejection
  dsimp only
  split
  · exact writeToDebugLog_logOnly ..
  · split
    · split
      · exact (writeToDebugLog_logOnly ..).compL (writeToDebugLog_logOnly ..)
      · exact writeToDebugLog_logOnly ..
    · split
      · exact writeToDebugLog_logOnly ..
      · exact LogOnly.baseL m

/-- CoreSame m mNew means mNew agrees with m on the configuration, the
state map, the dev flag, the destroyed flag, the committed transition
and the emission history: the fields no filter stage may touch. -/
structure CoreSame (m mNew : Machine S P) : Prop where
  cfg : mNew.cfg = m.cfg
  devMode : mNew.devMode = m.devMode
  stateMap : mNew.stateMap = m.stateMap
  committed : mNew.committed = m.committed
  destroyed : mNew.destroyed = m.destroyed
  emitted : mNew.emitted = m.emitted

theorem CoreSame.baseC (m : Machine S P) : CoreSame m m :=
  ⟨Eq.refl _, Eq.refl _, Eq.refl _, Eq.refl _, Eq.refl _, Eq.refl _⟩

theorem CoreSame.compC {m1 m2 m3 : Machine S P} (a : CoreSame m1 m2) (b : CoreSame m2 m3) :
    CoreSame m1 m3 :=
  ⟨b.cfg.trans a.cfg, b.devMode.trans a.devMode, b.stateMap.trans a.stateMap,
    b.committed.trans a.committed, b.destroyed.trans a.destroyed, b.emitted.trans a.emitted⟩

theorem LogOnly.coreSame {m1 m2 : Machine S P} (a : LogOnly m1 m2) : CoreSame m1 m2 :=
  ⟨a.cfg, a.devMode, a.stateMap, a.committed, a.destroyed, a.emitted⟩

theorem submitTransition_coreSame (m : Machine S P) (t : StateTransition S P) (msg : String) :
    CoreSame m (submitTransition m t msg).1 := by
  unfold submitTransition
  split
  · exact (handleTransitionRejection_logOnly m _).coreSame
  · exact ⟨rfl, rfl, rfl, rfl, rfl, rfl⟩

theorem applySubmits_coreSame (m : Machine S P) (l : List (HookSubmit S P)) :
    CoreSame m (applySubmits m l).1 := by
  induction l generalizing m with
  | nil => exact CoreSame.baseC m
  | cons s rest ih =>
    unfold applySubmits
    exact CoreSame.compC (submitTransition_coreSame m _ _) (ih _)

theorem resetInternalObservables_coreSame (m : Machine S P) (resetData : StateTransition S P)
    (logReset : Bool) : CoreSame m (resetInternalObservables m resetData logReset) := by
  unfold resetInternalObservables
  dsimp only
  split
  · constructor <;> simp
  · exact ⟨rfl, rfl, rfl, rfl, rfl, rfl⟩

theorem handleUnknownError_coreSame (m : Machine S P) :
    CoreSame m (handleUnknownError m).1 := by
  unfold handleUnknownError
  exact CoreSame.compC (writeToDebugLog_logOnly m _).coreSame (resetInternalObservables_coreSame _ _ _)

theorem filterUpdateFSMInit_coreSame (m : Machine S P) :
    CoreSame m (filterUpdateFSMInit m).1 := by
  unfold filterUpdateFSMInit
  split
  · dsimp only
    exact (handleTransitionRejection_logOnly m _).coreSame
  · exact CoreSame.baseC m

theorem filterRepeatedStateUpdates_coreSame (m : Machine S P) (t : StateTransition S P) :
    CoreSame m (filterRepeatedStateUpdates m t).1 := by
  unfold filterRepeatedStateUpdates
  split
  · dsimp only
    exact (handleTransitionRejection_logOnly m _).coreSame
  · exact CoreSame.baseC m

theorem filterUpdateStateMismatch_coreSame (m : Machine S P) (d : TStateData S P) :
    CoreSame m (filterUpdateStateMismatch m d).1 := by
  unfold filterUpdateStateMismatch
  split
  · dsimp only
    exact (handleTransitionRejection_logOnly m _).coreSame
  · exact CoreSame.baseC m

theorem executeOnUpdateHookCallback_coreSame (m : Machine S P) (d : TStateData S P) :
    CoreSame m (executeOnUpdateHookCallback m d).1 := by
  unfold executeOnUpdateHookCallback
  split
  · exact CoreSame.baseC m
  · dsimp only
    split
    · dsimp only
      exact CoreSame.compC (applySubmits_coreSame m _) (handleTransitionRejection_logOnly _ _).coreSame
    · exact applySubmits_coreSame m _
    · exact applySubmits_coreSame m _

theorem executeOnLeaveHookCallback_coreSame (m : Machine S P) (p d : TStateData S P) :
    CoreSame m (executeOnLeaveHookCallback m p d).1 := by
  unfold executeOnLeaveHookCallback
  split
  · exact CoreSame.baseC m
  · dsimp only
    split
    · dsimp only
      exact CoreSame.compC (applySubmits_coreSame m _) (handleTransitionRejection_logOnly _ _).coreSame
    · exact applySubmits_coreSame m _
    · exact applySubmits_coreSame m _

theorem executeOnEnterHookCallback_coreSame (m : Machine S P) (d : TStateData S P) :
    CoreSame m (executeOnEnterHookCallback m d).1 := by
  unfold executeOnEnterHookCallback
  split
  · exact CoreSame.baseC m
  · dsimp only
    split
    · dsimp only
      exact CoreSame.compC (applySubmits_coreSame m _) (handleTransitionRejection_logOnly _ _).coreSame
    · exact applySubmits_coreSame m _
    · exact applySubmits_coreSame m _

theorem updateFilter_coreSame (m : Machine S P) (t : StateTransition S P) (d : TStateData S P) :
    CoreSame m (updateFilter m t d).1 := by
  unfold updateFilter
  split
  next m1 e1 heq =>
    have h1 : CoreSame m m1 := by
      have := filterUpdateFSMInit_coreSame m
      rw [heq] at this; exact this
    exact h1
  next m1 e1 heq =>
    have h1 : CoreSame m m1 := by
      have := filterUpdateFSMInit_coreSame m
      rw [heq] at this; exact this
    split
    next m2 e2 heq2 =>
      have h2 : CoreSame m1 m2 := by
        have := filterRepeatedStateUpdates_coreSame m1 t
        rw [heq2] at this; exact this
      exact h1.compC h2
    next m2 e2 heq2 =>
      have h2 : CoreSame m1 m2 := by
        have := filterRepeatedStateUpdates_coreSame m1 t
        rw [heq2] at this; exact this
      split
      next m3 e3 heq3 =>
        have h3 : CoreSame m2 m3 := by
          have := filterUpdateStateMismatch_coreSame m2 d
          rw [heq3] at this; exact this
        exact (h1.compC h2).compC h3
      next m3 e3 heq3 =>
        have h3 : CoreSame m2 m3 := by
          have := filterUpdateStateMismatch_coreSame m2 d
          rw [heq3] at this; exact this
        split
        next m4 e4 r heq4 =>
          have h4 : CoreSame m3 m4 := by
            have := executeOnUpdateHookCallback_coreSame m3 d
            rw [heq4] at this; exact this
          exact ((h1.compC h2).compC h3).compC h4

theorem changeFilter_coreSame (m : Machine S P) (d : TStateData S P) :
    CoreSame m (changeFilter m d).1 := by
  unfold changeFilter
  split
  · dsimp only
    exact (handleTransitionRejection_logOnly m _).coreSame
  · split
    · split
      · split
        next m1 e1 heq =>
          have h1 : CoreSame m m1 := by
            have := executeOnLeaveHookCallback_coreSame m ‹_› d
            rw [heq] at this; exact this
          split
          next m2 e2 r heq2 =>
            have h2 : CoreSame m1 m2 := by
              have := executeOnEnterHookCallback_coreSame m1 d
              rw [heq2] at this; exact this
            exact h1.compC h2
        next m1 e1 r hne heq =>
          have h1 : CoreSame m m1 := by
            have := executeOnLeaveHookCallback_coreSame m ‹_› d
            rw [heq] at this; exact this
          exact h1
      · dsimp only
        exact (handleTransitionRejection_logOnly m _).coreSame
    · split
      · split
        next m2 e2 r heq2 =>
          have h2 : CoreSame m m2 := by
            have := executeOnEnterHookCallback_coreSame m d
            rw [heq2] at this; exact this
          exact h2
      · dsimp only
        exact (handleTransitionRejection_logOnly m _).coreSame

/-! Event-shape lemmas. -/

theorem handleTransitionRejection_snd (m : Machine S P) (tr : TransitionRejection) :
    (handleTransitionRejection m tr).2 =
      (if m.cfg.outputTransitionRejectionToConsole then
        match tr.errorSeverity with
        | .error => [.consoleOutput .error]
        | .warn => [.consoleOutput .warn]
        | .filteredUpdate => []
      else []) ++ [.rejectedEvt tr] := rfl

theorem mem_handleTransitionRejection_snd {m : Machine S P} {tr : TransitionRejection}
    {e : Event S P} (he : e ∈ (handleTransitionRejection m tr).2) :
    (∃ sev, e = .consoleOutput sev) ∨ e = .rejectedEvt tr := by
  rw [handleTransitionRejection_snd] at he
  rcases List.mem_append.mp he with h | h
  · split at h
    · split at h
      · exact Or.inl ⟨_, List.mem_singleton.mp h⟩
      · exact Or.inl ⟨_, List.mem_singleton.mp h⟩
      · exact absurd h (List.not_mem_nil e)
    · exact absurd h (List.not_mem_nil e)
  · exact Or.inr (List.mem_singleton.mp h)

theorem rejectedEvt_mem_handleTransitionRejection (m : Machine S P) (tr : TransitionRejection) :
    Event.rejectedEvt tr ∈ (handleTransitionRejection m tr).2 := by
  rw [handleTransitionRejection_snd]
  exact List.mem_append_right _ (List.mem_singleton.mpr (Eq.refl _))

/-- Claim C10: with isInDevMode false the resolved configuration
forces outputTransitionRejectionToConsole, stateOverride and
resetDebugLogOnOverride off whatever the caller supplied, the machine
is seeded with the FSMInit state, and declared rejection handling
prints nothing to the console when the console flag is off. -/
theorem claim_C10 (sm : StateMap S P) (p : PartialFsmConfig S P) :
    (extractFsmConfig p false).outputTransitionRejectionToConsole = false ∧
    (extractFsmConfig p false).stateOverride = none ∧
    (extractFsmConfig p false).resetDebugLogOnOverride = false ∧
    (construct sm p false).1.committed =
      { transitionType := .init, stateData := .fsmInit } ∧
    (∀ (m : Machine S P) (tr : TransitionRejection),
      m.cfg.outputTransitionRejectionToConsole = false →
      (handleTransitionRejection m tr).2 = [.rejectedEvt tr]) := by
  refine ⟨rfl, rfl, rfl, ?_, ?_⟩
  · simp [construct, extractFsmConfig]
  · intro m tr hoff
    rw [handleTransitionRejection_snd, hoff]
    simp

/-- Witness for C10 at the demonstration fixtures. -/
theorem claim_C10_witness :
    (extractFsmConfig demoCfg false).outputTransitionRejectionToConsole = false ∧
    (extractFsmConfig demoCfg false).stateOverride = none ∧
    (extractFsmConfig demoCfg false).resetDebugLogOnOverride = false ∧
    (construct demoMap demoCfg false).1.committed =
      { transitionType := .init, stateData := .fsmInit } ∧
    (handleTransitionRejection (construct demoMap demoCfg false).1 trDemo).2 =
      [.rejectedEvt trDemo] := by
  obtain ⟨h1, h2, h3, h4, h5⟩ := claim_C10 demoMap demoCfg
  exact ⟨h1, h2, h3, h4, h5 _ _ rfl⟩

/-- Claim C7: no lifecycle hook call event can appear in the trace of
an overrideCurrentState call, whatever branch it takes, nor in the
trace of construction, with or without a configured stateOverride;
only the overrideHookCalled event can occur. -/
theorem claim_C7 (fuel : Nat) (m : Machine S P) (o : StateOverride S P) (resetLog : Bool)
    (sm : StateMap S P) (pcfg : PartialFsmConfig S P) (dev : Bool)
    (h : HookKind) (obs : StateTransition S P) :
    Event.hookCalled h obs ∉ (runOp fuel m (.overrideOp o resetLog)).2 ∧
    Event.hookCalled h obs ∉ (construct sm pcfg dev).2 := by
  constructor
  · intro hmem
    simp only [runOp] at hmem
    split at hmem
    · rcases mem_handleTransitionRejection_snd hmem with ⟨sev, hc⟩ | hc <;> simp at hc
    · split at hmem
      · simp at hmem
      · dsimp only at hmem
        rcases List.mem_append.mp hmem with hx | hx
        · simp at hx
        · split at hx <;> simp at hx
  · intro hmem
    simp only [construct] at hmem
    split at hmem
    · split at hmem <;> simp at hmem
    · simp at hmem

theorem runOp_destroyed_coreSame (fuel : Nat) (m : Machine S P) (op : FsmOp S P)
    (hd : m.destroyed = true) : CoreSame m (runOp fuel m op).1 := by
  cases op with
  | submitUpdate d =>
    simp only [runOp, hd, if_true]
    exact submitTransition_coreSame m _ _
  | submitChange d =>
    simp only [runOp, hd, if_true]
    exact submitTransition_coreSame m _ _
  | overrideOp o resetLog =>
    simp only [runOp]
    split
    · exact (handleTransitionRejection_logOnly m _).coreSame
    · simp only [hd, if_true]
      exact CoreSame.baseC m
  | destroyOp =>
    simp only [runOp, hd, if_true]
    exact CoreSame.baseC m

theorem runOps_destroyed_coreSame (fuel : Nat) (m : Machine S P) (ops : List (FsmOp S P))
    (hd : m.destroyed = true) : CoreSame m (runOps fuel m ops).1 := by
  induction ops generalizing m with
  | nil => exact CoreSame.baseC m
  | cons op rest ih =>
    unfold runOps
    have h1 := runOp_destroyed_coreSame fuel m op hd
    exact h1.compC (ih _ (h1.destroyed.trans hd))

/-- Claim C6: on a destroyed machine every submitUpdate and
submitChange is rejected with after_fsm_destroy, no lifecycle hook and
no commit event occurs in its trace, and no sequence of further
operations ever changes the committed value or the emission history
again. -/
theorem claim_C6 (fuel : Nat) (m : Machine S P) (d : TStateData S P)
    (ops : List (FsmOp S P)) (hd : m.destroyed = true) :
    (Event.rejectedEvt
      { message := "Attempted to call updateState after destroy was called",
        errorSeverity := .warn, rejectReason := .after_fsm_destroy,
        transitionType := .update } ∈ (runOp fuel m (.submitUpdate d)).2) ∧
    (Event.rejectedEvt
      { message := "Attempted to call changeState after destroy was called",
        errorSeverity := .warn, rejectReason := .after_fsm_destroy,
        transitionType := .change } ∈ (runOp fuel m (.submitChange d)).2) ∧
    (∀ (h : HookKind) (obs : StateTransition S P),
      Event.hookCalled h obs ∉ (runOp fuel m (.submitUpdate d)).2 ∧
      Event.hookCalled h obs ∉ (runOp fuel m (.submitChange d)).2) ∧
    (∀ (t : StateTransition S P),
      Event.committedEvt t ∉ (runOp fuel m (.submitUpdate d)).2 ∧
      Event.committedEvt t ∉ (runOp fuel m (.submitChange d)).2) ∧
    (runOps fuel m ops).1.committed = m.committed ∧
    (runOps fuel m ops).1.emitted = m.emitted := by
  have hru : (runOp fuel m (.submitUpdate d)).2 =
      (handleTransitionRejection m
        { message := "Attempted to call updateState after destroy was called",
          errorSeverity := .warn, rejectReason := .after_fsm_destroy,
          transitionType := .update }).2 := by
    simp [runOp, submitTransition, hd]
  have hrc : (runOp fuel m (.submitChange d)).2 =
      (handleTransitionRejection m
        { message := "Attempted to call changeState after destroy was called",
          errorSeverity := .warn, rejectReason := .after_fsm_destroy,
          transitionType := .change }).2 := by
    simp [runOp, submitTransition, hd]
  refine ⟨?_, ?_, ?_, ?_, ?_, ?_⟩
  · rw [hru]; exact rejectedEvt_mem_handleTransitionRejection m _
  · rw [hrc]; exact rejectedEvt_mem_handleTransitionRejection m _
  · intro h obs
    constructor
    · rw [hru]
      intro hmem
      rcases mem_handleTransitionRejection_snd hmem with ⟨sev, hc⟩ | hc <;> simp at hc
    · rw [hrc]
      intro hmem
      rcases mem_handleTransitionRejection_snd hmem with ⟨sev, hc⟩ | hc <;> simp at hc
  · intro t
    constructor
    · rw [hru]
      intro hmem
      rcases mem_handleTransitionRejection_snd hmem with ⟨sev, hc⟩ | hc <;> simp at hc
    · rw [hrc]
      intro hmem
      rcases mem_handleTransitionRejection_snd hmem with ⟨sev, hc⟩ | hc <;> simp at hc
  · exact (runOps_destroyed_coreSame fuel m ops hd).committed
  · exact (runOps_destroyed_coreSame fuel m ops hd).emitted

/-- Witness for C6: a destroyed demonstration machine. -/
theorem claim_C6_witness :
    (Event.rejectedEvt
      { message := "Attempted to call updateState after destroy was called",
        errorSeverity := .warn, rejectReason := .after_fsm_destroy,
        transitionType := .update } ∈
      (runOp 5 (runOps 5 (construct demoMap demoCfg true).1
        [.submitChange da1, .destroyOp]).1 (.submitUpdate da2)).2) ∧
    (runOps 5 (runOps 5 (construct demoMap demoCfg true).1
        [.submitChange da1, .destroyOp]).1 [.submitUpdate da2, .submitChange db5]).1.committed =
      (runOps 5 (construct demoMap demoCfg true).1 [.submitChange da1, .destroyOp]).1.committed := by
  obtain ⟨h1, _, _, _, h5, _⟩ :=
    claim_C6 5 (runOps 5 (construct demoMap demoCfg true).1 [.submitChange da1, .destroyOp]).1
      da2 [.submitUpdate da2, .submitChange db5] (by decide)
  exact ⟨h1, h5⟩

/-! Shape lemmas for the hook executors and the change filter. -/

theorem executeOnLeaveHookCallback_none (m : Machine S P) (p d : TStateData S P)
    (h : (m.stateMap.metadata p.state).onLeave = none) :
    executeOnLeaveHookCallback m p d = (m, [], .pass) := by
  unfold executeOnLeaveHookCallback
  rw [h]

theorem executeOnLeaveHookCallback_pass (m : Machine S P) (p d : TStateData S P)
    (f : LeaveEnterChanges S P → HookOutcome S P)
    (h : (m.stateMap.metadata p.state).onLeave = some f)
    (hr : (f (mkOnLeaveChanges m p d)).result = .retTrue ∨
      (f (mkOnLeaveChanges m p d)).result = .retVoid) :
    executeOnLeaveHookCallback m p d =
      ((applySubmits m (f (mkOnLeaveChanges m p d)).submits).1,
        Event.hookCalled .onLeave m.committed ::
          (applySubmits m (f (mkOnLeaveChanges m p d)).submits).2,
        .pass) := by
  unfold executeOnLeaveHookCallback
  rw [h]
  dsimp only
  rcases hr with hr | hr <;> rw [hr]

theorem executeOnLeaveHookCallback_throws (m : Machine S P) (p d : TStateData S P)
    (f : LeaveEnterChanges S P → HookOutcome S P)
    (h : (m.stateMap.metadata p.state).onLeave = some f)
    (hr : (f (mkOnLeaveChanges m p d)).result = .throws) :
    executeOnLeaveHookCallback m p d =
      ((applySubmits m (f (mkOnLeaveChanges m p d)).submits).1,
        Event.hookCalled .onLeave m.committed ::
          (applySubmits m (f (mkOnLeaveChanges m p d)).submits).2,
        .threw) := by
  unfold executeOnLeaveHookCallback
  rw [h]
  dsimp only
  rw [hr]

theorem executeOnLeaveHookCallback_retFalse (m : Machine S P) (p d : TStateData S P)
    (f : LeaveEnterChanges S P → HookOutcome S P)
    (h : (m.stateMap.metadata p.state).onLeave = some f)
    (hr : (f (mkOnLeaveChanges m p d)).result = .retFalse) :
    executeOnLeaveHookCallback m p d =
      ((handleTransitionRejection (applySubmits m (f (mkOnLeaveChanges m p d)).submits).1
          trTerminatedByLeaveCallback).1,
        (Event.hookCalled .onLeave m.committed ::
          (applySubmits m (f (mkOnLeaveChanges m p d)).submits).2) ++
          (handleTransitionRejection (applySubmits m (f (mkOnLeaveChanges m p d)).submits).1
            trTerminatedByLeaveCallback).2,
        .fail .terminated_by_leave_callback) := by
  unfold executeOnLeaveHookCallback
  rw [h]
  dsimp only
  rw [hr]

theorem executeOnEnterHookCallback_none (m : Machine S P) (d : TStateData S P)
    (h : (m.stateMap.metadata d.state).onEnter = none) :
    executeOnEnterHookCallback m d = (m, [], .pass) := by
  unfold executeOnEnterHookCallback
  rw [h]

theorem executeOnEnterHookCallback_pass (m : Machine S P) (d : TStateData S P)
    (f : LeaveEnterChanges S P → HookOutcome S P)
    (h : (m.stateMap.metadata d.state).onEnter = some f)
    (hr : (f (mkOnEnterChanges m d)).result = .retTrue ∨
      (f (mkOnEnterChanges m d)).result = .retVoid) :
    executeOnEnterHookCallback m d =
      ((applySubmits m (f (mkOnEnterChanges m d)).submits).1,
        Event.hookCalled .onEnter m.committed ::
          (applySubmits m (f (mkOnEnterChanges m d)).submits).2,
        .pass) := by
  unfold executeOnEnterHookCallback
  rw [h]
  dsimp only
  rcases hr with hr | hr <;> rw [hr]

theorem executeOnEnterHookCallback_throws (m : Machine S P) (d : TStateData S P)
    (f : LeaveEnterChanges S P → HookOutcome S P)
    (h : (m.stateMap.metadata d.state).onEnter = some f)
    (hr : (f (mkOnEnterChanges m d)).result = .throws) :
    executeOnEnterHookCallback m d =
      ((applySubmits m (f (mkOnEnterChanges m d)).submits).1,
        Event.hookCalled .onEnter m.committed ::
          (applySubmits m (f (mkOnEnterChanges m d)).submits).2,
        .threw) := by
  unfold executeOnEnterHookCallback
  rw [h]
  dsimp only
  rw [hr]

theorem executeOnEnterHookCallback_retFalse (m : Machine S P) (d : TStateData S P)
    (f : LeaveEnterChanges S P → HookOutcome S P)
    (h : (m.stateMap.metadata d.state).onEnter = some f)
    (hr : (f (mkOnEnterChanges m d)).result = .retFalse) :
    executeOnEnterHookCallback m d =
      ((handleTransitionRejection (applySubmits m (f (mkOnEnterChanges m d)).submits).1
          trTerminatedByEnterCallback).1,
        (Event.hookCalled .onEnter m.committed ::
          (applySubmits m (f (mkOnEnterChanges m d)).submits).2) ++
          (handleTransitionRejection (applySubmits m (f (mkOnEnterChanges m d)).submits).1
            trTerminatedByEnterCallback).2,
        .fail .terminated_by_enter_callback) := by
  unfold executeOnEnterHookCallback
  rw [h]
  dsimp only
  rw [hr]

theorem executeOnUpdateHookCallback_none (m : Machine S P) (d : TStateData S P)
    (h : (m.stateMap.metadata d.state).onUpdate = none) :
    executeOnUpdateHookCallback m d = (m, [], .pass) := by
  unfold executeOnUpdateHookCallback
  rw [h]

theorem executeOnUpdateHookCallback_pass (m : Machine S P) (d : TStateData S P)
    (f : UpdateChanges S P → HookOutcome S P)
    (h : (m.stateMap.metadata d.state).onUpdate = some f)
    (hr : (f (mkOnUpdateChanges m d)).result = .retTrue ∨
      (f (mkOnUpdateChanges m d)).result = .retVoid) :
    executeOnUpdateHookCallback m d =
      ((applySubmits m (f (mkOnUpdateChanges m d)).submits).1,
        Event.hookCalled .onUpdate m.committed ::
          (applySubmits m (f (mkOnUpdateChanges m d)).submits).2,
        .pass) := by
  unfold executeOnUpdateHookCallback
  rw [h]
  dsimp only
  rcases hr with hr | hr <;> rw [hr]

theorem executeOnUpdateHookCallback_throws (m : Machine S P) (d : TStateData S P)
    (f : UpdateChanges S P → HookOutcome S P)
    (h : (m.stateMap.metadata d.state).onUpdate = some f)
    (hr : (f (mkOnUpdateChanges m d)).result = .throws) :
    executeOnUpdateHookCallback m d =
      ((applySubmits m (f (mkOnUpdateChanges m d)).submits).1,
        Event.hookCalled .onUpdate m.committed ::
          (applySubmits m (f (mkOnUpdateChanges m d)).submits).2,
        .threw) := by
  unfold executeOnUpdateHookCallback
  rw [h]
  dsimp only
  rw [hr]

theorem executeOnUpdateHookCallback_retFalse (m : Machine S P) (d : TStateData S P)
    (f : UpdateChanges S P → HookOutcome S P)
    (h : (m.stateMap.metadata d.state).onUpdate = some f)
    (hr : (f (mkOnUpdateChanges m d)).result = .retFalse) :
    executeOnUpdateHookCallback m d =
      ((handleTransitionRejection (applySubmits m (f (mkOnUpdateChanges m d)).submits).1
          trTerminatedByUpdateCallback).1,
        (Event.hookCalled .onUpdate m.committed ::
          (applySubmits m (f (mkOnUpdateChanges m d)).submits).2) ++
          (handleTransitionRejection (applySubmits m (f (mkOnUpdateChanges m d)).submits).1
            trTerminatedByUpdateCallback).2,
        .fail .terminated_by_update_callback) := by
  unfold executeOnUpdateHookCallback
  rw [h]
  dsimp only
  rw [hr]

theorem changeFilter_same (m : Machine S P) (d : TStateData S P)
    (h : stateTag m.committed.stateData = some d.state) :
    changeFilter m d =
      ((handleTransitionRejection m trIllegalChangeSameState).1,
        (handleTransitionRejection m trIllegalChangeSameState).2,
        .fail .illegal_change_same_state) := by
  unfold changeFilter
  rw [if_pos h]

theorem changeFilter_notPermittedToLeave (m : Machine S P) (d p : TStateData S P)
    (hc : m.committed.stateData = .custom p) (hs : p.state ≠ d.state)
    (hnl : LeaveTo.toState d.state ∉ (m.stateMap.metadata p.state).canLeaveToStates) :
    changeFilter m d =
      ((handleTransitionRejection m trNotPermittedToLeave).1,
        (handleTransitionRejection m trNotPermittedToLeave).2,
        .fail .not_permitted_to_leave) := by
  unfold changeFilter
  rw [hc]
  dsimp only [stateTag]
  rw [if_neg (by simpa using hs), if_neg hnl]

theorem changeFilter_concrete_allowed (m : Machine S P) (d p : TStateData S P)
    (hc : m.committed.stateData = .custom p) (hs : p.state ≠ d.state)
    (hin : LeaveTo.toState d.state ∈ (m.stateMap.metadata p.state).canLeaveToStates) :
    changeFilter m d =
      (match executeOnLeaveHookCallback m p d with
        | (m1, e1, .pass) =>
          match executeOnEnterHookCallback m1 d with
          | (m2, e2, r) =>
            (m2, [Event.nextChangeEmitted (some p.state) d.state] ++ e1 ++ e2, r)
        | (m1, e1, r) => (m1, [Event.nextChangeEmitted (some p.state) d.state] ++ e1, r)) := by
  unfold changeFilter
  rw [hc]
  dsimp only [stateTag]
  rw [if_neg (by simpa using hs), if_pos hin]

theorem changeFilter_fromInit_allowed (m : Machine S P) (d : TStateData S P)
    (hc : m.committed.stateData = .fsmInit)
    (hin : (none : Option S) ∈ (m.stateMap.metadata d.state).canEnterFromStates) :
    changeFilter m d =
      (match executeOnEnterHookCallback m d with
        | (m2, e2, r) =>
          (m2, [Event.canEnterFromChecked none d.state,
            Event.nextChangeEmitted none d.state] ++ e2, r)) := by
  unfold changeFilter
  rw [hc]
  dsimp only [stateTag]
  rw [if_neg (by simp), if_pos hin]

theorem changeFilter_fromInit_notPermitted (m : Machine S P) (d : TStateData S P)
    (hc : m.committed.stateData = .fsmInit)
    (hnot : (none : Option S) ∉ (m.stateMap.metadata d.state).canEnterFromStates) :
    changeFilter m d =
      ((handleTransitionRejection m trNotPermittedToEnter).1,
        Event.canEnterFromChecked none d.state ::
          (handleTransitionRejection m trNotPermittedToEnter).2,
        .fail .not_permitted_to_enter) := by
  unfold changeFilter
  rw [hc]
  dsimp only [stateTag]
  rw [if_neg (by simp), if_neg hnot]

theorem processOne_change (m : Machine S P) (i : Nat) (d : TStateData S P) :
    processOne m i { transitionType := .change, stateData := .custom d } =
      finishProcess (changeFilter m d).1 i { transitionType := .change, stateData := .custom d }
        (.procBegin i m.committed) (changeFilter m d).2.1 (changeFilter m d).2.2 := by
  unfold processOne
  dsimp only

theorem processOne_update (m : Machine S P) (i : Nat) (d : TStateData S P) :
    processOne m i { transitionType := .update, stateData := .custom d } =
      finishProcess (updateFilter m { transitionType := .update, stateData := .custom d } d).1 i
        { transitionType := .update, stateData := .custom d }
        (.procBegin i m.committed)
        (updateFilter m { transitionType := .update, stateData := .custom d } d).2.1
        (updateFilter m { transitionType := .update, stateData := .custom d } d).2.2 := by
  unfold processOne
  dsimp only

theorem drainAll_nil (fuel : Nat) (m : Machine S P) (h : m.pending = []) :
    drainAll fuel m = (m, []) := by
  cases fuel with
  | zero => rfl
  | succ n =>
    unfold drainAll
    rw [h]

theorem runOp_submitChange_eq (m : Machine S P) (d : TStateData S P) (fuel : Nat)
    (hdes : m.destroyed = false) (hp : m.pending = []) :
    runOp (fuel + 1) m (.submitChange d) =
      ((drainAll fuel
          (processOne (submitIdle m { transitionType := .change, stateData := .custom d })
            m.nextId { transitionType := .change, stateData := .custom d }).1).1,
        Event.enqueued m.nextId ::
          ((processOne (submitIdle m { transitionType := .change, stateData := .custom d })
            m.nextId { transitionType := .change, stateData := .custom d }).2.1 ++
          (drainAll fuel
            (processOne (submitIdle m { transitionType := .change, stateData := .custom d })
              m.nextId { transitionType := .change, stateData := .custom d }).1).2)) := by
  unfold submitIdle
  simp only [runOp, hdes, Bool.false_eq_true, if_false, submitTransition, hp]
  conv =>
    lhs
    rw [drainAll]
  simp only [List.nil_append, List.singleton_append]

theorem runOp_submitUpdate_eq (m : Machine S P) (d : TStateData S P) (fuel : Nat)
    (hdes : m.destroyed = false) (hp : m.pending = []) :
    runOp (fuel + 1) m (.submitUpdate d) =
      ((drainAll fuel
          (processOne (submitIdle m { transitionType := .update, stateData := .custom d })
            m.nextId { transitionType := .update, stateData := .custom d }).1).1,
        Event.enqueued m.nextId ::
          ((processOne (submitIdle m { transitionType := .update, stateData := .custom d })
            m.nextId { transitionType := .update, stateData := .custom d }).2.1 ++
          (drainAll fuel
            (processOne (submitIdle m { transitionType := .update, stateData := .custom d })
              m.nextId { transitionType := .update, stateData := .custom d }).1).2)) := by
  unfold submitIdle
  simp only [runOp, hdes, Bool.false_eq_true, if_false, submitTransition, hp]
  conv =>
    lhs
    rw [drainAll]
  simp only [List.nil_append, List.singleton_append]

theorem mem_submitTransition_snd {m : Machine S P} {t : StateTransition S P} {msg : String}
    {e : Event S P} (he : e ∈ (submitTransition m t msg).2) :
    (∃ id, e = .enqueued id) ∨ (∃ sev, e = .consoleOutput sev) ∨
      (∃ tr, e = .rejectedEvt tr) := by
  unfold submitTransition at he
  split at he
  · rcases mem_handleTransitionRejection_snd he with ⟨sev, h⟩ | h
    · exact Or.inr (Or.inl ⟨sev, h⟩)
    · exact Or.inr (Or.inr ⟨_, h⟩)
  · exact Or.inl ⟨m.nextId, List.mem_singleton.mp he⟩

theorem mem_applySubmits_snd {m : Machine S P} {l : List (HookSubmit S P)}
    {e : Event S P} (he : e ∈ (applySubmits m l).2) :
    (∃ id, e = .enqueued id) ∨ (∃ sev, e = .consoleOutput sev) ∨
      (∃ tr, e = .rejectedEvt tr) := by
  induction l generalizing m with
  | nil => exact absurd he (List.not_mem_nil e)
  | cons s rest ih =>
    unfold applySubmits at he
    rcases List.mem_append.mp he with h | h
    · exact mem_submitTransition_snd h
    · exact ih h

/-- Claim C5 (amended): a submitChange issued on an idle machine in a
concrete state, whose target tag differs from the current tag and is
absent from the current state's canLeaveToStates whitelist, is
rejected with not_permitted_to_leave; no pre-commit notification and
no lifecycle hook event occur, nothing is committed, and the committed
value and emission history are unchanged. -/
theorem claim_C5 (m : Machine S P) (d p : TStateData S P) (fuel : Nat)
    (res : Machine S P × List (Event S P))
    (hdes : m.destroyed = false) (hp : m.pending = [])
    (hc : m.committed.stateData = .custom p) (hs : p.state ≠ d.state)
    (hnl : LeaveTo.toState d.state ∉ (m.stateMap.metadata p.state).canLeaveToStates)
    (hres : res = runOp (fuel + 1) m (.submitChange d)) :
    Event.rejectedEvt trNotPermittedToLeave ∈ res.2 ∧
    (∀ l e, Event.nextChangeEmitted l e ∉ res.2) ∧
    (∀ h obs, Event.hookCalled h obs ∉ res.2) ∧
    (∀ t, Event.committedEvt t ∉ res.2) ∧
    res.1.committed = m.committed ∧
    res.1.emitted = m.emitted := by
  subst hres
  rw [runOp_submitChange_eq m d fuel hdes hp, processOne_change]
  rw [changeFilter_notPermittedToLeave
    (submitIdle m { transitionType := .change, stateData := .custom d }) d p hc hs hnl]
  simp only [finishProcess]
  rw [drainAll_nil fuel _ ((handleTransitionRejection_logOnly _ trNotPermittedToLeave).pending)]
  refine ⟨?_, ?_, ?_, ?_, ?_, ?_⟩
  · refine List.mem_cons_of_mem _ (List.mem_append_left _ (List.mem_cons_of_mem _ ?_))
    exact List.mem_append_left _ (rejectedEvt_mem_handleTransitionRejection _ _)
  · intro l e hmem
    simp only [List.append_nil] at hmem
    rcases List.mem_cons.mp hmem with h | hmem
    · simp at h
    rcases List.mem_cons.mp hmem with h | hmem
    · simp at h
    rcases List.mem_append.mp hmem with hmem | h
    on_goal 2 => simp at h
    rcases mem_handleTransitionRejection_snd hmem with ⟨sev, h2⟩ | h2 <;> simp at h2
  · intro hk obs hmem
    simp only [List.append_nil] at hmem
    rcases List.mem_cons.mp hmem with h | hmem
    · simp at h
    rcases List.mem_cons.mp hmem with h | hmem
    · simp at h
    rcases List.mem_append.mp hmem with hmem | h
    on_goal 2 => simp at h
    rcases mem_handleTransitionRejection_snd hmem with ⟨sev, h2⟩ | h2 <;> simp at h2
  · intro t hmem
    simp only [List.append_nil] at hmem
    rcases List.mem_cons.mp hmem with h | hmem
    · simp at h
    rcases List.mem_cons.mp hmem with h | hmem
    · simp at h
    rcases List.mem_append.mp hmem with hmem | h
    on_goal 2 => simp at h
    rcases mem_handleTransitionRejection_snd hmem with ⟨sev, h2⟩ | h2 <;> simp at h2
  · exact (handleTransitionRejection_logOnly _ _).committed
  · exact (handleTransitionRejection_logOnly _ _).emitted

/-- Counterexample to C5 as frozen: in state a, a submitChange whose
target tag equals the current tag (and is equally absent from the
canLeaveToStates whitelist) is rejected with illegal_change_same_state
rather than not_permitted_to_leave. -/
theorem claim_C5_counterexample :
    mC5.committed.stateData = StateData.custom da1 ∧
    da2.state = da1.state ∧
    LeaveTo.toState da2.state ∉ (mC5.stateMap.metadata da1.state).canLeaveToStates ∧
    (runOp 5 mC5 (.submitChange da2)).2.any (isRejectedWith .not_permitted_to_leave) = false ∧
    (runOp 5 mC5 (.submitChange da2)).2.any (isRejectedWith .illegal_change_same_state) = true := by
  refine ⟨by decide, by decide, by decide, by decide, by decide⟩

/-- Witness for the amended C5 at the demonstration machine: changing
from a straight to c is rejected not_permitted_to_leave and leaves the
committed value alone. -/
theorem claim_C5_witness :
    Event.rejectedEvt trNotPermittedToLeave ∈ (runOp 5 mC5 (.submitChange dc9)).2 ∧
    (runOp 5 mC5 (.submitChange dc9)).1.committed = mC5.committed := by
  obtain ⟨h1, _, _, _, h5, _⟩ :=
    claim_C5 mC5 dc9 da1 4 (runOp 5 mC5 (.submitChange dc9))
      (by decide) (by decide) (by decide) (by decide) (by decide) rfl
  exact ⟨h1, h5⟩

/-- Claim C4: for an accepted change out of a concrete state with both
hooks declared, the pre-commit notification, the onLeave call, the
onEnter call and the commit appear in the trace in exactly that
relative order; and when the onLeave hook answers false the change is
rejected terminated_by_leave_callback, no onEnter call occurs and the
committed value is unchanged. -/
theorem claim_C4 (m : Machine S P) (i : Nat) (d p : TStateData S P)
    (fL fE : LeaveEnterChanges S P → HookOutcome S P)
    (hc : m.committed.stateData = .custom p)
    (hL : (m.stateMap.metadata p.state).onLeave = some fL)
    (hE : (m.stateMap.metadata d.state).onEnter = some fE) :
    ((processOne m i { transitionType := .change, stateData := .custom d }).2.2 = .committedOk →
      List.Sublist
      [Event.nextChangeEmitted (some p.state) d.state,
        Event.hookCalled .onLeave m.committed,
        Event.hookCalled .onEnter m.committed,
        Event.committedEvt { transitionType := .change, stateData := .custom d }]
        ((processOne m i { transitionType := .change, stateData := .custom d }).2.1)) ∧
    (p.state ≠ d.state →
      LeaveTo.toState d.state ∈ (m.stateMap.metadata p.state).canLeaveToStates →
      (fL (mkOnLeaveChanges m p d)).result = .retFalse →
      (processOne m i { transitionType := .change, stateData := .custom d }).2.2 =
        .rejectedOut .terminated_by_leave_callback ∧
      (∀ obs, Event.hookCalled .onEnter obs ∉
        (processOne m i { transitionType := .change, stateData := .custom d }).2.1) ∧
      (processOne m i { transitionType := .change, stateData := .custom d }).1.committed =
        m.committed) := by
  constructor
  · intro hok
    rw [processOne_change] at hok ⊢
    by_cases hs : p.state = d.state
    · rw [changeFilter_same m d (by rw [hc]; simp [stateTag, hs])] at hok
      simp only [finishProcess] at hok
      exact absurd hok (by simp)
    · by_cases hin : LeaveTo.toState d.state ∈ (m.stateMap.metadata p.state).canLeaveToStates
      · rw [changeFilter_concrete_allowed m d p hc hs hin] at hok ⊢
        rcases hresL : (fL (mkOnLeaveChanges m p d)).result with _ | _ | _ | _
        · rw [executeOnLeaveHookCallback_pass m p d fL hL (Or.inl hresL)] at hok ⊢
          dsimp only at hok ⊢
          have hsm := (applySubmits_coreSame m (fL (mkOnLeaveChanges m p d)).submits).stateMap
          have hcm := (applySubmits_coreSame m (fL (mkOnLeaveChanges m p d)).submits).committed
          rcases hresE : (fE (mkOnEnterChanges
              (applySubmits m (fL (mkOnLeaveChanges m p d)).submits).1 d)).result with _ | _ | _ | _
          · rw [executeOnEnterHookCallback_pass _ d fE (by rw [hsm]; exact hE)
              (Or.inl hresE)] at hok ⊢
            dsimp only at hok ⊢
            simp only [finishProcess, hcm]
            simp only [List.append_assoc, List.cons_append, List.singleton_append]
            apply List.Sublist.cons
            apply List.Sublist.cons₂
            apply List.Sublist.cons₂
            refine List.Sublist.trans ?_ (List.sublist_append_right _ _)
            apply List.Sublist.cons₂
            refine List.Sublist.trans ?_ (List.sublist_append_right _ _)
            exact List.Sublist.cons₂ _ (List.nil_sublist _)
          · rw [executeOnEnterHookCallback_pass _ d fE (by rw [hsm]; exact hE)
              (Or.inr hresE)] at hok ⊢
            dsimp only at hok ⊢
            simp only [finishProcess, hcm]
            simp only [List.append_assoc, List.cons_append, List.singleton_append]
            apply List.Sublist.cons
            apply List.Sublist.cons₂
            apply List.Sublist.cons₂
            refine List.Sublist.trans ?_ (List.sublist_append_right _ _)
            apply List.Sublist.cons₂
            refine List.Sublist.trans ?_ (List.sublist_append_right _ _)
            exact List.Sublist.cons₂ _ (List.nil_sublist _)
          · rw [executeOnEnterHookCallback_retFalse _ d fE (by rw [hsm]; exact hE) hresE] at hok
            dsimp only at hok
            simp only [finishProcess] at hok
            exact absurd hok (by simp)
          · rw [executeOnEnterHookCallback_throws _ d fE (by rw [hsm]; exact hE) hresE] at hok
            dsimp only at hok
            simp only [finishProcess] at hok
            exact absurd hok (by simp)
        · rw [executeOnLeaveHookCallback_pass m p d fL hL (Or.inr hresL)] at hok ⊢
          dsimp only at hok ⊢
          have hsm := (applySubmits_coreSame m (fL (mkOnLeaveChanges m p d)).submits).stateMap
          have hcm := (applySubmits_coreSame m (fL (mkOnLeaveChanges m p d)).submits).committed
          rcases hresE : (fE (mkOnEnterChanges
              (applySubmits m (fL (mkOnLeaveChanges m p d)).submits).1 d)).result with _ | _ | _ | _
          · rw [executeOnEnterHookCallback_pass _ d fE (by rw [hsm]; exact hE)
              (Or.inl hresE)] at hok ⊢
            dsimp only at hok ⊢
            simp only [finishProcess, hcm]
            simp only [List.append_assoc, List.cons_append, List.singleton_append]
            apply List.Sublist.cons
            apply List.Sublist.cons₂
            apply List.Sublist.cons₂
            refine List.Sublist.trans ?_ (List.sublist_append_right _ _)
            apply List.Sublist.cons₂
            refine List.Sublist.trans ?_ (List.sublist_append_right _ _)
            exact List.Sublist.cons₂ _ (List.nil_sublist _)
          · rw [executeOnEnterHookCallback_pass _ d fE (by rw [hsm]; exact hE)
              (Or.inr hresE)] at hok ⊢
            dsimp only at hok ⊢
            simp only [finishProcess, hcm]
            simp only [List.append_assoc, List.cons_append, List.singleton_append]
            apply List.Sublist.cons
            apply List.Sublist.cons₂
            apply List.Sublist.cons₂
            refine List.Sublist.trans ?_ (List.sublist_append_right _ _)
            apply List.Sublist.cons₂
            refine List.Sublist.trans ?_ (List.sublist_append_right _ _)
            exact List.Sublist.cons₂ _ (List.nil_sublist _)
          · rw [executeOnEnterHookCallback_retFalse _ d fE (by rw [hsm]; exact hE) hresE] at hok
            dsimp only at hok
            simp only [finishProcess] at hok
            exact absurd hok (by simp)
          · rw [executeOnEnterHookCallback_throws _ d fE (by rw [hsm]; exact hE) hresE] at hok
            dsimp only at hok
            simp only [finishProcess] at hok
            exact absurd hok (by simp)
        · rw [executeOnLeaveHookCallback_retFalse m p d fL hL hresL] at hok
          dsimp only at hok
          simp only [finishProcess] at hok
          exact absurd hok (by simp)
        · rw [executeOnLeaveHookCallback_throws m p d fL hL hresL] at hok
          dsimp only at hok
          simp only [finishProcess] at hok
          exact absurd hok (by simp)
      · rw [changeFilter_notPermittedToLeave m d p hc hs hin] at hok
        simp only [finishProcess] at hok
        exact absurd hok (by simp)
  · intro hs hin hresL
    rw [processOne_change, changeFilter_concrete_allowed m d p hc hs hin,
      executeOnLeaveHookCallback_retFalse m p d fL hL hresL]
    dsimp only
    simp only [finishProcess]
    refine ⟨by simp, ?_, ?_⟩
    · intro obs hmem
      rcases List.mem_cons.mp hmem with h | hmem
      · simp at h
      rcases List.mem_append.mp hmem with hmem | h
      on_goal 2 => simp at h
      rcases List.mem_append.mp hmem with h | hmem
      · simp at h
      rcases List.mem_append.mp hmem with hmem | h
      on_goal 2 =>
        rcases mem_handleTransitionRejection_snd h with ⟨sev, h2⟩ | h2 <;> simp at h2
      rcases List.mem_cons.mp hmem with h | hmem
      · simp at h
      rcases mem_applySubmits_snd hmem with ⟨id, h2⟩ | ⟨sev, h2⟩ | ⟨tr2, h2⟩ <;> simp at h2
    · exact ((applySubmits_coreSame m _).compC
        (handleTransitionRejection_logOnly _ _).coreSame).committed

/-- Witness for C4: the accepted change a to b on the hooked machine
shows the four events in order, and the false-returning onLeave
variant is rejected with terminated_by_leave_callback. -/
theorem claim_C4_witness :
    (List.Sublist
      [Event.nextChangeEmitted (some DS.a) DS.b,
      Event.hookCalled .onLeave mC4.committed,
      Event.hookCalled .onEnter mC4.committed,
      Event.committedEvt { transitionType := .change, stateData := .custom db5 }]
      ((processOne mC4 3 { transitionType := .change, stateData := .custom db5 }).2.1)) ∧
    (processOne mC4b 3 { transitionType := .change, stateData := .custom db5 }).2.2 =
      .rejectedOut .terminated_by_leave_callback := by
  constructor
  · exact (claim_C4 mC4 3 db5 da1 hookVoid hookVoid (by decide) rfl rfl).1 (by decide)
  · exact ((claim_C4 mC4b 3 db5 da1 hookFalse hookVoid (by decide) rfl rfl).2
      (by decide) (by decide) rfl).1

/-! Result and event characterizations of the hook executors and
filters. -/

theorem executeOnLeaveHookCallback_res (m : Machine S P) (p d : TStateData S P) :
    (executeOnLeaveHookCallback m p d).2.2 = .pass ∨
    (executeOnLeaveHookCallback m p d).2.2 = .fail .terminated_by_leave_callback ∨
    (executeOnLeaveHookCallback m p d).2.2 = .threw := by
  unfold executeOnLeaveHookCallback
  split
  · exact Or.inl rfl
  · dsimp only
    split
    · exact Or.inr (Or.inl rfl)
    · exact Or.inr (Or.inr rfl)
    · exact Or.inl rfl

theorem executeOnEnterHookCallback_res (m : Machine S P) (d : TStateData S P) :
    (executeOnEnterHookCallback m d).2.2 = .pass ∨
    (executeOnEnterHookCallback m d).2.2 = .fail .terminated_by_enter_callback ∨
    (executeOnEnterHookCallback m d).2.2 = .threw := by
  unfold executeOnEnterHookCallback
  split
  · exact Or.inl rfl
  · dsimp only
    split
    · exact Or.inr (Or.inl rfl)
    · exact Or.inr (Or.inr rfl)
    · exact Or.inl rfl

theorem executeOnUpdateHookCallback_res (m : Machine S P) (d : TStateData S P) :
    (executeOnUpdateHookCallback m d).2.2 = .pass ∨
    (executeOnUpdateHookCallback m d).2.2 = .fail .terminated_by_update_callback ∨
    (executeOnUpdateHookCallback m d).2.2 = .threw := by
  unfold executeOnUpdateHookCallback
  split
  · exact Or.inl rfl
  · dsimp only
    split
    · exact Or.inr (Or.inl rfl)
    · exact Or.inr (Or.inr rfl)
    · exact Or.inl rfl

theorem mem_executeOnLeaveHookCallback_snd {m : Machine S P} {p d : TStateData S P}
    {e : Event S P} (he : e ∈ (executeOnLeaveHookCallback m p d).2.1) :
    (∃ j, e = .enqueued j) ∨ (∃ sev, e = .consoleOutput sev) ∨
      (∃ tr, e = .rejectedEvt tr) ∨ e = .hookCalled .onLeave m.committed := by
  unfold executeOnLeaveHookCallback at he
  split at he
  · exact absurd he (List.not_mem_nil e)
  · dsimp only at he
    split at he
    · rcases List.mem_append.mp he with h | h
      · rcases List.mem_cons.mp h with h | h
        · exact Or.inr (Or.inr (Or.inr h))
        · rcases mem_applySubmits_snd h with h2 | h2 | h2
          · exact Or.inl h2
          · exact Or.inr (Or.inl h2)
          · exact Or.inr (Or.inr (Or.inl h2))
      · rcases mem_handleTransitionRejection_snd h with ⟨sev, h2⟩ | h2
        · exact Or.inr (Or.inl ⟨sev, h2⟩)
        · exact Or.inr (Or.inr (Or.inl ⟨_, h2⟩))
    · rcases List.mem_cons.mp he with h | h
      · exact Or.inr (Or.inr (Or.inr h))
      · rcases mem_applySubmits_snd h with h2 | h2 | h2
        · exact Or.inl h2
        · exact Or.inr (Or.inl h2)
        · exact Or.inr (Or.inr (Or.inl h2))
    · rcases List.mem_cons.mp he with h | h
      · exact Or.inr (Or.inr (Or.inr h))
      · rcases mem_applySubmits_snd h with h2 | h2 | h2
        · exact Or.inl h2
        · exact Or.inr (Or.inl h2)
        · exact Or.inr (Or.inr (Or.inl h2))

theorem mem_executeOnEnterHookCallback_snd {m : Machine S P} {d : TStateData S P}
    {e : Event S P} (he : e ∈ (executeOnEnterHookCallback m d).2.1) :
    (∃ j, e = .enqueued j) ∨ (∃ sev, e = .consoleOutput sev) ∨
      (∃ tr, e = .rejectedEvt tr) ∨ e = .hookCalled .onEnter m.committed := by
  unfold executeOnEnterHookCallback at he
  split at he
  · exact absurd he (List.not_mem_nil e)
  · dsimp only at he
    split at he
    · rcases List.mem_append.mp he with h | h
      · rcases List.mem_cons.mp h with h | h
        · exact Or.inr (Or.inr (Or.inr h))
        · rcases mem_applySubmits_snd h with h2 | h2 | h2
          · exact Or.inl h2
          · exact Or.inr (Or.inl h2)
          · exact Or.inr (Or.inr (Or.inl h2))
      · rcases mem_handleTransitionRejection_snd h with ⟨sev, h2⟩ | h2
        · exact Or.inr (Or.inl ⟨sev, h2⟩)
        · exact Or.inr (Or.inr (Or.inl ⟨_, h2⟩))
    · rcases List.mem_cons.mp he with h | h
      · exact Or.inr (Or.inr (Or.inr h))
      · rcases mem_applySubmits_snd h with h2 | h2 | h2
        · exact Or.inl h2
        · exact Or.inr (Or.inl h2)
        · exact Or.inr (Or.inr (Or.inl h2))
    · rcases List.mem_cons.mp he with h | h
      · exact Or.inr (Or.inr (Or.inr h))
      · rcases mem_applySubmits_snd h with h2 | h2 | h2
        · exact Or.inl h2
        · exact Or.inr (Or.inl h2)
        · exact Or.inr (Or.inr (Or.inl h2))

theorem mem_executeOnUpdateHookCallback_snd {m : Machine S P} {d : TStateData S P}
    {e : Event S P} (he : e ∈ (executeOnUpdateHookCallback m d).2.1) :
    (∃ j, e = .enqueued j) ∨ (∃ sev, e = .consoleOutput sev) ∨
      (∃ tr, e = .rejectedEvt tr) ∨ e = .hookCalled .onUpdate m.committed := by
  unfold executeOnUpdateHookCallback at he
  split at he
  · exact absurd he (List.not_mem_nil e)
  · dsimp only at he
    split at he
    · rcases List.mem_append.mp he with h | h
      · rcases List.mem_cons.mp h with h | h
        · exact Or.inr (Or.inr (Or.inr h))
        · rcases mem_applySubmits_snd h with h2 | h2 | h2
          · exact Or.inl h2
          · exact Or.inr (Or.inl h2)
          · exact Or.inr (Or.inr (Or.inl h2))
      · rcases mem_handleTransitionRejection_snd h with ⟨sev, h2⟩ | h2
        · exact Or.inr (Or.inl ⟨sev, h2⟩)
        · exact Or.inr (Or.inr (Or.inl ⟨_, h2⟩))
    · rcases List.mem_cons.mp he with h | h
      · exact Or.inr (Or.inr (Or.inr h))
      · rcases mem_applySubmits_snd h with h2 | h2 | h2
        · exact Or.inl h2
        · exact Or.inr (Or.inl h2)
        · exact Or.inr (Or.inr (Or.inl h2))
    · rcases List.mem_cons.mp he with h | h
      · exact Or.inr (Or.inr (Or.inr h))
      · rcases mem_applySubmits_snd h with h2 | h2 | h2
        · exact Or.inl h2
        · exact Or.inr (Or.inl h2)
        · exact Or.inr (Or.inr (Or.inl h2))

theorem mem_filterUpdateFSMInit_snd {m : Machine S P} {e : Event S P}
    (he : e ∈ (filterUpdateFSMInit m).2.1) :
    (∃ sev, e = .consoleOutput sev) ∨ (∃ tr, e = .rejectedEvt tr) := by
  unfold filterUpdateFSMInit at he
  split at he
  · dsimp only at he
    rcases mem_handleTransitionRejection_snd he with ⟨sev, h⟩ | h
    · exact Or.inl ⟨sev, h⟩
    · exact Or.inr ⟨_, h⟩
  · exact absurd he (List.not_mem_nil e)

theorem mem_filterRepeatedStateUpdates_snd {m : Machine S P} {t : StateTransition S P}
    {e : Event S P} (he : e ∈ (filterRepeatedStateUpdates m t).2.1) :
    (∃ sev, e = .consoleOutput sev) ∨ (∃ tr, e = .rejectedEvt tr) := by
  unfold filterRepeatedStateUpdates at he
  split at he
  · dsimp only at he
    rcases mem_handleTransitionRejection_snd he with ⟨sev, h⟩ | h
    · exact Or.inl ⟨sev, h⟩
    · exact Or.inr ⟨_, h⟩
  · exact absurd he (List.not_mem_nil e)

theorem mem_filterUpdateStateMismatch_snd {m : Machine S P} {d : TStateData S P}
    {e : Event S P} (he : e ∈ (filterUpdateStateMismatch m d).2.1) :
    (∃ sev, e = .consoleOutput sev) ∨ (∃ tr, e = .rejectedEvt tr) := by
  unfold filterUpdateStateMismatch at he
  split at he
  · dsimp only at he
    rcases mem_handleTransitionRejection_snd he with ⟨sev, h⟩ | h
    · exact Or.inl ⟨sev, h⟩
    · exact Or.inr ⟨_, h⟩
  · exact absurd he (List.not_mem_nil e)

theorem mem_updateFilter_snd {m : Machine S P} {t : StateTransition S P} {d : TStateData S P}
    {e : Event S P} (he : e ∈ (updateFilter m t d).2.1) :
    (∃ j, e = .enqueued j) ∨ (∃ sev, e = .consoleOutput sev) ∨
      (∃ tr, e = .rejectedEvt tr) ∨ e = .hookCalled .onUpdate m.committed := by
  unfold updateFilter at he
  split at he
  next m1 e1 heq =>
    have h1 : e ∈ (filterUpdateFSMInit m).2.1 := by rw [heq]; exact he
    rcases mem_filterUpdateFSMInit_snd h1 with ⟨sev, h⟩ | ⟨tr2, h⟩
    · exact Or.inr (Or.inl ⟨sev, h⟩)
    · exact Or.inr (Or.inr (Or.inl ⟨tr2, h⟩))
  next m1 e1 heq =>
    have hm1 : CoreSame m m1 := by
      have := filterUpdateFSMInit_coreSame m
      rw [heq] at this; exact this
    split at he
    next m2 e2 heq2 =>
      rcases List.mem_append.mp he with h | h
      · have h1 : e ∈ (filterUpdateFSMInit m).2.1 := by rw [heq]; exact h
        rcases mem_filterUpdateFSMInit_snd h1 with ⟨sev, h2⟩ | ⟨tr2, h2⟩
        · exact Or.inr (Or.inl ⟨sev, h2⟩)
        · exact Or.inr (Or.inr (Or.inl ⟨tr2, h2⟩))
      · have h1 : e ∈ (filterRepeatedStateUpdates m1 t).2.1 := by rw [heq2]; exact h
        rcases mem_filterRepeatedStateUpdates_snd h1 with ⟨sev, h2⟩ | ⟨tr2, h2⟩
        · exact Or.inr (Or.inl ⟨sev, h2⟩)
        · exact Or.inr (Or.inr (Or.inl ⟨tr2, h2⟩))
    next m2 e2 heq2 =>
      have hm2 : CoreSame m m2 := by
        have := filterRepeatedStateUpdates_coreSame m1 t
        rw [heq2] at this; exact hm1.compC this
      split at he
      next m3 e3 heq3 =>
        rcases List.mem_append.mp he with h | h
        · rcases List.mem_append.mp h with h | h
          · have h1 : e ∈ (filterUpdateFSMInit m).2.1 := by rw [heq]; exact h
            rcases mem_filterUpdateFSMInit_snd h1 with ⟨sev, h2⟩ | ⟨tr2, h2⟩
            · exact Or.inr (Or.inl ⟨sev, h2⟩)
            · exact Or.inr (Or.inr (Or.inl ⟨tr2, h2⟩))
          · have h1 : e ∈ (filterRepeatedStateUpdates m1 t).2.1 := by rw [heq2]; exact h
            rcases mem_filterRepeatedStateUpdates_snd h1 with ⟨sev, h2⟩ | ⟨tr2, h2⟩
            · exact Or.inr (Or.inl ⟨sev, h2⟩)
            · exact Or.inr (Or.inr (Or.inl ⟨tr2, h2⟩))
        · have h1 : e ∈ (filterUpdateStateMismatch m2 d).2.1 := by rw [heq3]; exact h
          rcases mem_filterUpdateStateMismatch_snd h1 with ⟨sev, h2⟩ | ⟨tr2, h2⟩
          · exact Or.inr (Or.inl ⟨sev, h2⟩)
          · exact Or.inr (Or.inr (Or.inl ⟨tr2, h2⟩))
      next m3 e3 heq3 =>
        have hm3 : CoreSame m m3 := by
          have := filterUpdateStateMismatch_coreSame m2 d
          rw [heq3] at this; exact hm2.compC this
        split at he
        next m4 e4 r heq4 =>
          rcases List.mem_append.mp he with h | h
          · rcases List.mem_append.mp h with h | h
            · rcases List.mem_append.mp h with h | h
              · have h1 : e ∈ (filterUpdateFSMInit m).2.1 := by rw [heq]; exact h
                rcases mem_filterUpdateFSMInit_snd h1 with ⟨sev, h2⟩ | ⟨tr2, h2⟩
                · exact Or.inr (Or.inl ⟨sev, h2⟩)
                · exact Or.inr (Or.inr (Or.inl ⟨tr2, h2⟩))
              · have h1 : e ∈ (filterRepeatedStateUpdates m1 t).2.1 := by rw [heq2]; exact h
                rcases mem_filterRepeatedStateUpdates_snd h1 with ⟨sev, h2⟩ | ⟨tr2, h2⟩
                · exact Or.inr (Or.inl ⟨sev, h2⟩)
                · exact Or.inr (Or.inr (Or.inl ⟨tr2, h2⟩))
            · have h1 : e ∈ (filterUpdateStateMismatch m2 d).2.1 := by rw [heq3]; exact h
              rcases mem_filterUpdateStateMismatch_snd h1 with ⟨sev, h2⟩ | ⟨tr2, h2⟩
              · exact Or.inr (Or.inl ⟨sev, h2⟩)
              · exact Or.inr (Or.inr (Or.inl ⟨tr2, h2⟩))
          · have h1 : e ∈ (executeOnUpdateHookCallback m3 d).2.1 := by rw [heq4]; exact h
            rcases mem_executeOnUpdateHookCallback_snd h1 with h2 | ⟨sev, h2⟩ | ⟨tr2, h2⟩ | h2
            · exact Or.inl h2
            · exact Or.inr (Or.inl ⟨sev, h2⟩)
            · exact Or.inr (Or.inr (Or.inl ⟨tr2, h2⟩))
            · rw [hm3.committed] at h2
              exact Or.inr (Or.inr (Or.inr h2))

theorem mem_changeFilter_snd {m : Machine S P} {d : TStateData S P} {e : Event S P}
    (he : e ∈ (changeFilter m d).2.1) :
    (∃ j, e = .enqueued j) ∨ (∃ sev, e = .consoleOutput sev) ∨
      (∃ tr, e = .rejectedEvt tr) ∨ (∃ l s, e = .nextChangeEmitted l s) ∨
      (∃ k, e = .hookCalled k m.committed) ∨
      ((∃ s, e = .canEnterFromChecked none s) ∧ m.committed.stateData = .fsmInit) := by
  unfold changeFilter at he
  split at he
  · dsimp only at he
    rcases mem_handleTransitionRejection_snd he with ⟨sev, h⟩ | h
    · exact Or.inr (Or.inl ⟨sev, h⟩)
    · exact Or.inr (Or.inr (Or.inl ⟨_, h⟩))
  · split at he
    next p heqc =>
      split at he
      · split at he
        next m1 e1 heq1 =>
          have hm1 : CoreSame m m1 := by
            have := executeOnLeaveHookCallback_coreSame m p d
            rw [heq1] at this; exact this
          split at he
          next m2 e2 r heq2 =>
            rcases List.mem_append.mp he with h | h
            · rcases List.mem_append.mp h with h | h
              · exact Or.inr (Or.inr (Or.inr (Or.inl ⟨_, _, List.mem_singleton.mp h⟩)))
              · have h1 : e ∈ (executeOnLeaveHookCallback m p d).2.1 := by rw [heq1]; exact h
                rcases mem_executeOnLeaveHookCallback_snd h1 with h2 | ⟨sev, h2⟩ | ⟨tr2, h2⟩ | h2
                · exact Or.inl h2
                · exact Or.inr (Or.inl ⟨sev, h2⟩)
                · exact Or.inr (Or.inr (Or.inl ⟨tr2, h2⟩))
                · exact Or.inr (Or.inr (Or.inr (Or.inr (Or.inl ⟨_, h2⟩))))
            · have h1 : e ∈ (executeOnEnterHookCallback m1 d).2.1 := by rw [heq2]; exact h
              rcases mem_executeOnEnterHookCallback_snd h1 with h2 | ⟨sev, h2⟩ | ⟨tr2, h2⟩ | h2
              · exact Or.inl h2
              · exact Or.inr (Or.inl ⟨sev, h2⟩)
              · exact Or.inr (Or.inr (Or.inl ⟨tr2, h2⟩))
              · rw [hm1.committed] at h2
                exact Or.inr (Or.inr (Or.inr (Or.inr (Or.inl ⟨_, h2⟩))))
        next m1 e1 r hne heq1 =>
          rcases List.mem_append.mp he with h | h
          · exact Or.inr (Or.inr (Or.inr (Or.inl ⟨_, _, List.mem_singleton.mp h⟩)))
          · have h1 : e ∈ (executeOnLeaveHookCallback m p d).2.1 := by rw [heq1]; exact h
            rcases mem_executeOnLeaveHookCallback_snd h1 with h2 | ⟨sev, h2⟩ | ⟨tr2, h2⟩ | h2
            · exact Or.inl h2
            · exact Or.inr (Or.inl ⟨sev, h2⟩)
            · exact Or.inr (Or.inr (Or.inl ⟨tr2, h2⟩))
            · exact Or.inr (Or.inr (Or.inr (Or.inr (Or.inl ⟨_, h2⟩))))
      · dsimp only at he
        rcases mem_handleTransitionRejection_snd he with ⟨sev, h⟩ | h
        · exact Or.inr (Or.inl ⟨sev, h⟩)
        · exact Or.inr (Or.inr (Or.inl ⟨_, h⟩))
    next heqc =>
      split at he
      · split at he
        next m2 e2 r heq2 =>
          rcases List.mem_append.mp he with h | h
          · rcases List.mem_cons.mp h with h | h
            · exact Or.inr (Or.inr (Or.inr (Or.inr (Or.inr ⟨⟨_, h⟩, heqc⟩))))
            · exact Or.inr (Or.inr (Or.inr (Or.inl ⟨_, _, List.mem_singleton.mp h⟩)))
          · have h1 : e ∈ (executeOnEnterHookCallback m d).2.1 := by rw [heq2]; exact h
            rcases mem_executeOnEnterHookCallback_snd h1 with h2 | ⟨sev, h2⟩ | ⟨tr2, h2⟩ | h2
            · exact Or.inl h2
            · exact Or.inr (Or.inl ⟨sev, h2⟩)
            · exact Or.inr (Or.inr (Or.inl ⟨tr2, h2⟩))
            · exact Or.inr (Or.inr (Or.inr (Or.inr (Or.inl ⟨_, h2⟩))))
      · rcases List.mem_cons.mp he with h | h
        · exact Or.inr (Or.inr (Or.inr (Or.inr (Or.inr ⟨⟨_, h⟩, heqc⟩))))
        · rcases mem_handleTransitionRejection_snd h with ⟨sev, h2⟩ | h2
          · exact Or.inr (Or.inl ⟨sev, h2⟩)
          · exact Or.inr (Or.inr (Or.inl ⟨_, h2⟩))

theorem handleUnknownError_snd (m : Machine S P) :
    (handleUnknownError m).2 =
      [.consoleOutput .error, .unknownErrorEvt m.lastSubmitted] := rfl

theorem handleUnknownError_lastSubmitted (m : Machine S P) :
    (handleUnknownError m).1.lastSubmitted =
      { transitionType := .recover, stateData := m.committed.stateData } := by
  unfold handleUnknownError resetInternalObservables
  dsimp only
  split <;> simp

theorem handleUnknownError_pending (m : Machine S P) :
    (handleUnknownError m).1.pending = [] := by
  unfold handleUnknownError resetInternalObservables
  dsimp only
  split <;> simp

theorem updateFilter_fail_cases {m : Machine S P} {t : StateTransition S P}
    {d : TStateData S P} {r : RejectReason}
    (h : (updateFilter m t d).2.2 = .fail r) :
    r = .illegal_update_FSMInit ∨ r = .repeat_update_filtered ∨
      r = .update_state_mismatch ∨ r = .terminated_by_update_callback := by
  unfold updateFilter at h
  split at h
  · simp only at h
    exact Or.inl (FilterRes.fail.inj h).symm
  next m1 e1 heq =>
    split at h
    · simp only at h
      exact Or.inr (Or.inl (FilterRes.fail.inj h).symm)
    next m2 e2 heq2 =>
      split at h
      · simp only at h
        exact Or.inr (Or.inr (Or.inl (FilterRes.fail.inj h).symm))
      next m3 e3 heq3 =>
        split at h
        next m4 e4 r4 heq4 =>
          have hres := executeOnUpdateHookCallback_res m3 d
          rw [heq4] at hres
          simp only at hres h
          rcases hres with h2 | h2 | h2 <;> rw [h2] at h
          · exact absurd h (by simp)
          · exact Or.inr (Or.inr (Or.inr (FilterRes.fail.inj h).symm))
          · exact absurd h (by simp)

theorem changeFilter_fail_enter {m : Machine S P} {d : TStateData S P}
    (h : (changeFilter m d).2.2 = .fail .not_permitted_to_enter) :
    m.committed.stateData = .fsmInit := by
  unfold changeFilter at h
  split at h
  · simp at h
  · split at h
    next p heqc =>
      split at h
      · split at h
        next m1 e1 heq1 =>
          split at h
          next m2 e2 r heq2 =>
            have hres := executeOnEnterHookCallback_res m1 d
            rw [heq2] at hres
            simp only at hres h
            rcases hres with h2 | h2 | h2 <;> rw [h2] at h <;> simp at h
        next m1 e1 r hne heq1 =>
          have hres := executeOnLeaveHookCallback_res m p d
          rw [heq1] at hres
          simp only at hres h
          rcases hres with h2 | h2 | h2 <;> rw [h2] at h <;> simp at h
      · simp at h
    next heqc => exact heqc

/-- Claim C2: when processing a queued request crashes on an uncaught
hook exception, the committed transition and the emission history are
untouched, no commit event occurs, and the rebuilt pipeline subject is
seeded with the last committed value retagged recover, its queue
empty. -/
theorem claim_C2 (m : Machine S P) (i : Nat) (t : StateTransition S P)
    (hcr : (processOne m i t).2.2 = .crashed) :
    (processOne m i t).1.committed = m.committed ∧
    (processOne m i t).1.emitted = m.emitted ∧
    (∀ t2, Event.committedEvt t2 ∉ (processOne m i t).2.1) ∧
    (processOne m i t).1.lastSubmitted =
      { transitionType := .recover, stateData := m.committed.stateData } ∧
    (processOne m i t).1.pending = [] := by
  rcases t with ⟨tt, sd⟩
  cases sd with
  | fsmInit => simp [processOne] at hcr
  | custom d =>
    cases tt with
    | update =>
      rw [processOne_update] at hcr ⊢
      rcases hres : (updateFilter m { transitionType := .update, stateData := .custom d } d).2.2
        with _ | r | _
      · rw [hres] at hcr; simp [finishProcess] at hcr
      · rw [hres] at hcr; simp [finishProcess] at hcr
      · simp only [finishProcess]
        have hcs := (updateFilter_coreSame m { transitionType := .update, stateData := .custom d }
          d).compC (handleUnknownError_coreSame _)
        refine ⟨hcs.committed, hcs.emitted, ?_, ?_, ?_⟩
        · intro t2 hmem
          rcases List.mem_cons.mp hmem with h | hmem2
          · simp at h
          rcases List.mem_append.mp hmem2 with hmem3 | h
          on_goal 2 => simp at h
          rcases List.mem_append.mp hmem3 with h | h
          · rcases mem_updateFilter_snd h with ⟨j, h2⟩ | ⟨sev, h2⟩ | ⟨tr2, h2⟩ | h2 <;> simp at h2
          · rw [handleUnknownError_snd] at h
            rcases List.mem_cons.mp h with h2 | h2 <;> simp at h2
        · rw [handleUnknownError_lastSubmitted,
            (updateFilter_coreSame m { transitionType := .update, stateData := .custom d }
              d).committed]
        · exact handleUnknownError_pending _
    | change =>
      rw [processOne_change] at hcr ⊢
      rcases hres : (changeFilter m d).2.2 with _ | r | _
      · rw [hres] at hcr; simp [finishProcess] at hcr
      · rw [hres] at hcr; simp [finishProcess] at hcr
      · simp only [finishProcess]
        have hcs := (changeFilter_coreSame m d).compC (handleUnknownError_coreSame _)
        refine ⟨hcs.committed, hcs.emitted, ?_, ?_, ?_⟩
        · intro t2 hmem
          rcases List.mem_cons.mp hmem with h | hmem2
          · simp at h
          rcases List.mem_append.mp hmem2 with hmem3 | h
          on_goal 2 => simp at h
          rcases List.mem_append.mp hmem3 with h | h
          · rcases mem_changeFilter_snd h with
              ⟨j, h2⟩ | ⟨sev, h2⟩ | ⟨tr2, h2⟩ | ⟨l, s, h2⟩ | ⟨k, h2⟩ | ⟨⟨s, h2⟩, h3⟩ <;> simp at h2
          · rw [handleUnknownError_snd] at h
            rcases List.mem_cons.mp h with h2 | h2 <;> simp at h2
        · rw [handleUnknownError_lastSubmitted, (changeFilter_coreSame m d).committed]
        · exact handleUnknownError_pending _
    | init => simp [processOne] at hcr
    | override => simp [processOne] at hcr
    | recover => simp [processOne] at hcr
    | reset => simp [processOne] at hcr

/-- Witness for C2: a throwing onEnter hook crashes the change from a
to b and the machine keeps its committed value, reseeding the pipeline
with it tagged recover. -/
theorem claim_C2_witness :
    (processOne mC2 7 { transitionType := .change, stateData := .custom db5 }).1.committed =
      mC2.committed ∧
    (processOne mC2 7 { transitionType := .change, stateData := .custom db5 }).1.lastSubmitted =
      { transitionType := .recover, stateData := mC2.committed.stateData } := by
  obtain ⟨h1, _, _, h4, _⟩ :=
    claim_C2 mC2 7 { transitionType := .change, stateData := .custom db5 } (by decide)
  exact ⟨h1, h4⟩

/-- Claim C9: while the machine rests in a concrete state no
processing step ever consults a canEnterFromStates whitelist (the
ghost marker for filterChangeFromProhibitedState never occurs), and a
not_permitted_to_enter rejection outcome forces the committed state to
be FSMInit. -/
theorem claim_C9 (m : Machine S P) (i : Nat) (t : StateTransition S P) (p : TStateData S P)
    (hc : m.committed.stateData = .custom p) :
    (∀ l s, Event.canEnterFromChecked l s ∉ (processOne m i t).2.1) ∧
    (∀ (m2 : Machine S P) (i2 : Nat) (t2 : StateTransition S P),
      (processOne m2 i2 t2).2.2 = .rejectedOut .not_permitted_to_enter →
      m2.committed.stateData = .fsmInit) := by
  constructor
  · intro l s hmem
    rcases t with ⟨tt, sd⟩
    cases sd with
    | fsmInit =>
      simp only [processOne] at hmem
      rcases List.mem_cons.mp hmem with h | h <;> simp at h
    | custom d =>
      cases tt with
      | update =>
        rw [processOne_update] at hmem
        rcases hres : (updateFilter m { transitionType := .update, stateData := .custom d }
            d).2.2 with _ | r | _ <;> rw [hres] at hmem <;> simp only [finishProcess] at hmem <;>
          rcases List.mem_cons.mp hmem with h | hmem2
        · simp at h
        · rcases List.mem_append.mp hmem2 with hmem3 | h
          on_goal 2 => simp at h
          rcases List.mem_append.mp hmem3 with h | h
          · rcases mem_updateFilter_snd h with ⟨j, h2⟩ | ⟨sev, h2⟩ | ⟨tr2, h2⟩ | h2 <;> simp at h2
          · simp [commitTransition] at h
        · simp at h
        · rcases List.mem_append.mp hmem2 with h | h
          on_goal 2 => simp at h
          rcases mem_updateFilter_snd h with ⟨j, h2⟩ | ⟨sev, h2⟩ | ⟨tr2, h2⟩ | h2 <;> simp at h2
        · simp at h
        · rcases List.mem_append.mp hmem2 with hmem3 | h
          on_goal 2 => simp at h
          rcases List.mem_append.mp hmem3 with h | h
          · rcases mem_updateFilter_snd h with ⟨j, h2⟩ | ⟨sev, h2⟩ | ⟨tr2, h2⟩ | h2 <;> simp at h2
          · rw [handleUnknownError_snd] at h
            rcases List.mem_cons.mp h with h2 | h2 <;> simp at h2
      | change =>
        rw [processOne_change] at hmem
        have hfil : ∀ e ∈ (changeFilter m d).2.1, e ≠ Event.canEnterFromChecked l s := by
          intro e hef heq
          rcases mem_changeFilter_snd hef with
            ⟨j, h2⟩ | ⟨sev, h2⟩ | ⟨tr2, h2⟩ | ⟨l2, s2, h2⟩ | ⟨k, h2⟩ | ⟨⟨s2, h2⟩, h3⟩
          · rw [heq] at h2; simp at h2
          · rw [heq] at h2; simp at h2
          · rw [heq] at h2; simp at h2
          · rw [heq] at h2; simp at h2
          · rw [heq] at h2; simp at h2
          · rw [hc] at h3; simp at h3
        rcases hres : (changeFilter m d).2.2 with _ | r | _ <;> rw [hres] at hmem <;>
          simp only [finishProcess] at hmem <;>
          rcases List.mem_cons.mp hmem with h | hmem2
        · simp at h
        · rcases List.mem_append.mp hmem2 with hmem3 | h
          on_goal 2 => simp at h
          rcases List.mem_append.mp hmem3 with h | h
          · exact hfil _ h rfl
          · simp [commitTransition] at h
        · simp at h
        · rcases List.mem_append.mp hmem2 with h | h
          on_goal 2 => simp at h
          exact hfil _ h rfl
        · simp at h
        · rcases List.mem_append.mp hmem2 with hmem3 | h
          on_goal 2 => simp at h
          rcases List.mem_append.mp hmem3 with h | h
          · exact hfil _ h rfl
          · rw [handleUnknownError_snd] at h
            rcases List.mem_cons.mp h with h2 | h2 <;> simp at h2
      | init =>
        simp only [processOne] at hmem
        rcases List.mem_cons.mp hmem with h | h <;> simp at h
      | override =>
        simp only [processOne] at hmem
        rcases List.mem_cons.mp hmem with h | h <;> simp at h
      | recover =>
        simp only [processOne] at hmem
        rcases List.mem_cons.mp hmem with h | h <;> simp at h
      | reset =>
        simp only [processOne] at hmem
        rcases List.mem_cons.mp hmem with h | h <;> simp at h
  · intro m2 i2 t2 hout
    rcases t2 with ⟨tt, sd⟩
    cases sd with
    | fsmInit => simp [processOne] at hout
    | custom d =>
      cases tt with
      | update =>
        rw [processOne_update] at hout
        rcases hres : (updateFilter m2 { transitionType := .update, stateData := .custom d }
            d).2.2 with _ | r | _ <;> rw [hres] at hout <;> simp only [finishProcess] at hout
        · simp at hout
        · have := updateFilter_fail_cases hres
          have hr : r = RejectReason.not_permitted_to_enter := by
            simpa using hout
          rw [hr] at this
          rcases this with h | h | h | h <;> simp at h
        · simp at hout
      | change =>
        rw [processOne_change] at hout
        rcases hres : (changeFilter m2 d).2.2 with _ | r | _ <;> rw [hres] at hout <;>
          simp only [finishProcess] at hout
        · simp at hout
        · have hr : r = RejectReason.not_permitted_to_enter := by
            simpa using hout
          rw [hr] at hres
          exact changeFilter_fail_enter hres
        · simp at hout
      | init => simp [processOne] at hout
      | override => simp [processOne] at hout
      | recover => simp [processOne] at hout
      | reset => simp [processOne] at hout

/-- Witness for C9: in state a no canEnterFromStates consultation
occurs when changing to b, and from FSMInit a change to b is indeed
rejected not_permitted_to_enter with the Init state committed. -/
theorem claim_C9_witness :
    (Event.canEnterFromChecked (none : Option DS) DS.b ∉
      (processOne mC5 0 { transitionType := .change, stateData := .custom db5 }).2.1) ∧
    (construct demoMap demoCfg true).1.committed.stateData = StateData.fsmInit := by
  constructor
  · exact (claim_C9 mC5 0 { transitionType := .change, stateData := .custom db5 } da1
      (by decide)).1 none DS.b
  · exact (claim_C9 mC5 0 { transitionType := .change, stateData := .custom db5 } da1
      (by decide)).2 (construct demoMap demoCfg true).1 0
      { transitionType := .change, stateData := .custom db5 } (by decide)

/-! Field lemmas for commitTransition and configuration constancy
through whole runs. -/

@[simp] theorem commitTransition_committed (m : Machine S P) (t : StateTransition S P) :
    (commitTransition m t).1.committed = t := rfl

@[simp] theorem commitTransition_emitted (m : Machine S P) (t : StateTransition S P) :
    (commitTransition m t).1.emitted = m.emitted ++ [t.stateData] := by
  unfold commitTransition
  dsimp only
  rw [writeToDebugLog_emitted]

@[simp] theorem commitTransition_cfg (m : Machine S P) (t : StateTransition S P) :
    (commitTransition m t).1.cfg = m.cfg := by
  unfold commitTransition
  dsimp only
  rw [writeToDebugLog_cfg]

@[simp] theorem commitTransition_stateMap (m : Machine S P) (t : StateTransition S P) :
    (commitTransition m t).1.stateMap = m.stateMap := by
  unfold commitTransition
  dsimp only
  rw [writeToDebugLog_stateMap]

@[simp] theorem commitTransition_devMode (m : Machine S P) (t : StateTransition S P) :
    (commitTransition m t).1.devMode = m.devMode := by
  unfold commitTransition
  dsimp only
  rw [writeToDebugLog_devMode]

@[simp] theorem commitTransition_destroyed (m : Machine S P) (t : StateTransition S P) :
    (commitTransition m t).1.destroyed = m.destroyed := by
  unfold commitTransition
  dsimp only
  rw [writeToDebugLog_destroyed]

@[simp] theorem commitTransition_pending (m : Machine S P) (t : StateTransition S P) :
    (commitTransition m t).1.pending = m.pending := by
  unfold commitTransition
  dsimp only
  rw [writeToDebugLog_pending]

@[simp] theorem commitTransition_lastSubmitted (m : Machine S P) (t : StateTransition S P) :
    (commitTransition m t).1.lastSubmitted = m.lastSubmitted := by
  unfold commitTransition
  dsimp only
  rw [writeToDebugLog_lastSubmitted]

theorem processOne_cfg (m : Machine S P) (i : Nat) (t : StateTransition S P) :
    (processOne m i t).1.cfg = m.cfg := by
  rcases t with ⟨tt, sd⟩
  cases sd with
  | fsmInit => rfl
  | custom d =>
    cases tt with
    | update =>
      rw [processOne_update]
      rcases hres : (updateFilter m { transitionType := .update, stateData := .custom d }
          d).2.2 with _ | r | _ <;> simp only [finishProcess]
      · rw [commitTransition_cfg,
          (updateFilter_coreSame m { transitionType := .update, stateData := .custom d } d).cfg]
      · exact (updateFilter_coreSame m { transitionType := .update, stateData := .custom d } d).cfg
      · exact ((updateFilter_coreSame m { transitionType := .update, stateData := .custom d }
          d).compC (handleUnknownError_coreSame _)).cfg
    | change =>
      rw [processOne_change]
      rcases hres : (changeFilter m d).2.2 with _ | r | _ <;> simp only [finishProcess]
      · rw [commitTransition_cfg, (changeFilter_coreSame m d).cfg]
      · exact (changeFilter_coreSame m d).cfg
      · exact ((changeFilter_coreSame m d).compC (handleUnknownError_coreSame _)).cfg
    | init => rfl
    | override => rfl
    | recover => rfl
    | reset => rfl

theorem processOne_stateMap (m : Machine S P) (i : Nat) (t : StateTransition S P) :
    (processOne m i t).1.stateMap = m.stateMap := by
  rcases t with ⟨tt, sd⟩
  cases sd with
  | fsmInit => rfl
  | custom d =>
    cases tt with
    | update =>
      rw [processOne_update]
      rcases hres : (updateFilter m { transitionType := .update, stateData := .custom d }
          d).2.2 with _ | r | _ <;> simp only [finishProcess]
      · rw [commitTransition_stateMap,
          (updateFilter_coreSame m { transitionType := .update, stateData := .custom d }
            d).stateMap]
      · exact (updateFilter_coreSame m { transitionType := .update, stateData := .custom d }
          d).stateMap
      · exact ((updateFilter_coreSame m { transitionType := .update, stateData := .custom d }
          d).compC (handleUnknownError_coreSame _)).stateMap
    | change =>
      rw [processOne_change]
      rcases hres : (changeFilter m d).2.2 with _ | r | _ <;> simp only [finishProcess]
      · rw [commitTransition_stateMap, (changeFilter_coreSame m d).stateMap]
      · exact (changeFilter_coreSame m d).stateMap
      · exact ((changeFilter_coreSame m d).compC (handleUnknownError_coreSame _)).stateMap
    | init => rfl
    | override => rfl
    | recover => rfl
    | reset => rfl

theorem processOne_devMode (m : Machine S P) (i : Nat) (t : StateTransition S P) :
    (processOne m i t).1.devMode = m.devMode := by
  rcases t with ⟨tt, sd⟩
  cases sd with
  | fsmInit => rfl
  | custom d =>
    cases tt with
    | update =>
      rw [processOne_update]
      rcases hres : (updateFilter m { transitionType := .update, stateData := .custom d }
          d).2.2 with _ | r | _ <;> simp only [finishProcess]
      · rw [commitTransition_devMode,
          (updateFilter_coreSame m { transitionType := .update, stateData := .custom d }
            d).devMode]
      · exact (updateFilter_coreSame m { transitionType := .update, stateData := .custom d }
          d).devMode
      · exact ((updateFilter_coreSame m { transitionType := .update, stateData := .custom d }
          d).compC (handleUnknownError_coreSame _)).devMode
    | change =>
      rw [processOne_change]
      rcases hres : (changeFilter m d).2.2 with _ | r | _ <;> simp only [finishProcess]
      · rw [commitTransition_devMode, (changeFilter_coreSame m d).devMode]
      · exact (changeFilter_coreSame m d).devMode
      · exact ((changeFilter_coreSame m d).compC (handleUnknownError_coreSame _)).devMode
    | init => rfl
    | override => rfl
    | recover => rfl
    | reset => rfl

theorem processOne_destroyed (m : Machine S P) (i : Nat) (t : StateTransition S P) :
    (processOne m i t).1.destroyed = m.destroyed := by
  rcases t with ⟨tt, sd⟩
  cases sd with
  | fsmInit => rfl
  | custom d =>
    cases tt with
    | update =>
      rw [processOne_update]
      rcases hres : (updateFilter m { transitionType := .update, stateData := .custom d }
          d).2.2 with _ | r | _ <;> simp only [finishProcess]
      · rw [commitTransition_destroyed,
          (updateFilter_coreSame m { transitionType := .update, stateData := .custom d }
            d).destroyed]
      · exact (updateFilter_coreSame m { transitionType := .update, stateData := .custom d }
          d).destroyed
      · exact ((updateFilter_coreSame m { transitionType := .update, stateData := .custom d }
          d).compC (handleUnknownError_coreSame _)).destroyed
    | change =>
      rw [processOne_change]
      rcases hres : (changeFilter m d).2.2 with _ | r | _ <;> simp only [finishProcess]
      · rw [commitTransition_destroyed, (changeFilter_coreSame m d).destroyed]
      · exact (changeFilter_coreSame m d).destroyed
      · exact ((changeFilter_coreSame m d).compC (handleUnknownError_coreSame _)).destroyed
    | init => rfl
    | override => rfl
    | recover => rfl
    | reset => rfl

theorem drainAll_cfg (fuel : Nat) (m : Machine S P) :
    (drainAll fuel m).1.cfg = m.cfg := by
  induction fuel generalizing m with
  | zero => rfl
  | succ n ih =>
    unfold drainAll
    split
    · rfl
    · dsimp only
      rw [ih, processOne_cfg]

theorem drainAll_stateMap (fuel : Nat) (m : Machine S P) :
    (drainAll fuel m).1.stateMap = m.stateMap := by
  induction fuel generalizing m with
  | zero => rfl
  | succ n ih =>
    unfold drainAll
    split
    · rfl
    · dsimp only
      rw [ih, processOne_stateMap]

theorem drainAll_devMode (fuel : Nat) (m : Machine S P) :
    (drainAll fuel m).1.devMode = m.devMode := by
  induction fuel generalizing m with
  | zero => rfl
  | succ n ih =>
    unfold drainAll
    split
    · rfl
    · dsimp only
      rw [ih, processOne_devMode]

theorem drainAll_destroyed (fuel : Nat) (m : Machine S P) :
    (drainAll fuel m).1.destroyed = m.destroyed := by
  induction fuel generalizing m with
  | zero => rfl
  | succ n ih =>
    unfold drainAll
    split
    · rfl
    · dsimp only
      rw [ih, processOne_destroyed]

theorem runOp_cfg (fuel : Nat) (m : Machine S P) (op : FsmOp S P) :
    (runOp fuel m op).1.cfg = m.cfg := by
  cases op with
  | submitUpdate d =>
    simp only [runOp]
    split
    · exact (submitTransition_coreSame m _ _).cfg
    · dsimp only
      rw [drainAll_cfg, (submitTransition_coreSame m _ _).cfg]
  | submitChange d =>
    simp only [runOp]
    split
    · exact (submitTransition_coreSame m _ _).cfg
    · dsimp only
      rw [drainAll_cfg, (submitTransition_coreSame m _ _).cfg]
  | overrideOp o resetLog =>
    simp only [runOp]
    split
    · exact (handleTransitionRejection_logOnly m _).cfg
    · split
      · rfl
      · dsimp only
        rw [writeToDebugLog_cfg]
        split
        · rw [capDebugLogLength_cfg]
          exact (resetInternalObservables_coreSame m _ _).cfg
        · exact (resetInternalObservables_coreSame m _ _).cfg
  | destroyOp =>
    simp only [runOp]
    split
    · rfl
    · rfl

theorem runOps_cfg (fuel : Nat) (m : Machine S P) (ops : List (FsmOp S P)) :
    (runOps fuel m ops).1.cfg = m.cfg := by
  induction ops generalizing m with
  | nil => rfl
  | cons op rest ih =>
    unfold runOps
    dsimp only
    rw [ih, runOp_cfg]

theorem construct_cfg (sm : StateMap S P) (pcfg : PartialFsmConfig S P) (dev : Bool) :
    (construct sm pcfg dev).1.cfg = extractFsmConfig pcfg dev := by
  unfold construct
  dsimp only
  rw [writeToDebugLog_cfg]

/-! The debug-log invariant and its preservation. -/

theorem capList_suffix (c : LogBufferCount) (l : List (DebugLogEntry S P)) :
    capList c l <:+ l := by
  cases c with
  | unbounded => exact List.suffix_refl l
  | fin n => exact List.drop_suffix _ l

theorem capList_length_fin (n : Nat) (l : List (DebugLogEntry S P)) :
    (capList (.fin n) l).length ≤ n := by
  simp only [capList, List.length_drop]
  omega

theorem capList_length_le (c : LogBufferCount) (l : List (DebugLogEntry S P)) :
    (capList c l).length ≤ l.length := by
  cases c with
  | unbounded => exact Nat.le_refl _
  | fin n =>
    simp only [capList, List.length_drop]
    omega

theorem suffix_append_one {α : Type} {l h : List α} (hs : l <:+ h) (a : α) :
    l ++ [a] <:+ h ++ [a] := by
  obtain ⟨t, rfl⟩ := hs
  exact ⟨t, (List.append_assoc t l [a]).symm⟩

theorem LogInv.transport {m mNew : Machine S P} (h : LogInv m)
    (h1 : mNew.debugLog = m.debugLog) (h2 : mNew.logHistory = m.logHistory)
    (h3 : mNew.cfg = m.cfg) : LogInv mNew := by
  obtain ⟨a, b, c⟩ := h
  refine ⟨?_, ?_, ?_⟩
  · rw [h1, h3]; exact a
  · rw [h1, h2]; exact b
  · intro l hl
    rw [h1] at hl
    obtain ⟨cs, cl⟩ := c l hl
    rw [h2, h3]
    exact ⟨cs, cl⟩

theorem LogInv_set_pending {m : Machine S P} (h : LogInv m)
    (q : List (Nat × StateTransition S P)) : LogInv { m with pending := q } :=
  h.transport rfl rfl rfl

theorem LogInv_set_queue {m : Machine S P} (h : LogInv m) (ls : StateTransition S P)
    (q : List (Nat × StateTransition S P)) :
    LogInv { m with lastSubmitted := ls, pending := q } :=
  h.transport rfl rfl rfl

theorem LogInv_set_committed {m : Machine S P} (h : LogInv m) (c : StateTransition S P)
    (em : List (StateData S P)) : LogInv { m with committed := c, emitted := em } :=
  h.transport rfl rfl rfl

theorem writeToDebugLog_logInv {m : Machine S P} (h : LogInv m) (e : DebugLogEntry S P) :
    LogInv (writeToDebugLog m e) := by
  unfold writeToDebugLog
  split
  · exact h
  next log heq =>
    dsimp only
    obtain ⟨a, b, c⟩ := h
    refine ⟨?_, ?_, ?_⟩
    · rw [heq] at a
      exact a.symm ▸ rfl
    · intro hnone
      exact absurd hnone (by simp)
    · intro l hl
      have hl2 : l = capList m.cfg.debugLogBufferCount
          (log ++ [if m.cfg.stringifyLogTransitionData then
            { e with stateData := stringifyLogStateData e.stateData } else e]) := by
        simpa using hl.symm
      subst hl2
      constructor
      · exact (capList_suffix _ _).trans (suffix_append_one (c log heq).1 _)
      · intro k hk
        rw [hk]
        exact capList_length_fin k _

theorem capDebugLogLength_logInv {m : Machine S P} (h : LogInv m) (c : LogBufferCount) :
    LogInv (capDebugLogLength m c) := by
  unfold capDebugLogLength
  split
  · exact h
  next log heq =>
    obtain ⟨a, b, hc⟩ := h
    refine ⟨?_, ?_, ?_⟩
    · rw [heq] at a
      exact a.symm ▸ rfl
    · intro hnone
      exact absurd hnone (by simp)
    · intro l hl
      have hl2 : l = capList c log := by simpa using hl.symm
      subst hl2
      obtain ⟨cs, cl⟩ := hc log heq
      constructor
      · exact (capList_suffix _ _).trans cs
      · intro k hk
        exact Nat.le_trans (capList_length_le c log) (cl k hk)

theorem handleTransitionRejection_logInv {m : Machine S P} (h : LogInv m)
    (tr : TransitionRejection) : LogInv (handleTransitionRejection m tr).1 := by
  unfold handleTransitionRejection
  dsimp only
  split
  · exact writeToDebugLog_logInv h _
  · split
    · split
      · exact writeToDebugLog_logInv (writeToDebugLog_logInv h _) _
      · exact writeToDebugLog_logInv h _
    · split
      · exact writeToDebugLog_logInv h _
      · exact h

theorem submitTransition_logInv {m : Machine S P} (h : LogInv m)
    (t : StateTransition S P) (msg : String) : LogInv (submitTransition m t msg).1 := by
  unfold submitTransition
  split
  · exact handleTransitionRejection_logInv h _
  · exact h.transport rfl rfl rfl

theorem applySubmits_logInv {m : Machine S P} (h : LogInv m) (l : List (HookSubmit S P)) :
    LogInv (applySubmits m l).1 := by
  induction l generalizing m with
  | nil => exact h
  | cons s rest ih =>
    unfold applySubmits
    exact ih (submitTransition_logInv h _ _)

theorem executeOnLeaveHookCallback_logInv {m : Machine S P} (h : LogInv m)
    (p d : TStateData S P) : LogInv (executeOnLeaveHookCallback m p d).1 := by
  unfold executeOnLeaveHookCallback
  split
  · exact h
  · dsimp only
    split
    · exact handleTransitionRejection_logInv (applySubmits_logInv h _) _
    · exact applySubmits_logInv h _
    · exact applySubmits_logInv h _

theorem executeOnEnterHookCallback_logInv {m : Machine S P} (h : LogInv m)
    (d : TStateData S P) : LogInv (executeOnEnterHookCallback m d).1 := by
  unfold executeOnEnterHookCallback
  split
  · exact h
  · dsimp only
    split
    · exact handleTransitionRejection_logInv (applySubmits_logInv h _) _
    · exact applySubmits_logInv h _
    · exact applySubmits_logInv h _

theorem executeOnUpdateHookCallback_logInv {m : Machine S P} (h : LogInv m)
    (d : TStateData S P) : LogInv (executeOnUpdateHookCallback m d).1 := by
  unfold executeOnUpdateHookCallback
  split
  · exact h
  · dsimp only
    split
    · exact handleTransitionRejection_logInv (applySubmits_logInv h _) _
    · exact applySubmits_logInv h _
    · exact applySubmits_logInv h _

theorem filterUpdateFSMInit_logInv {m : Machine S P} (h : LogInv m) :
    LogInv (filterUpdateFSMInit m).1 := by
  unfold filterUpdateFSMInit
  split
  · dsimp only
    exact handleTransitionRejection_logInv h _
  · exact h

theorem filterRepeatedStateUpdates_logInv {m : Machine S P} (h : LogInv m)
    (t : StateTransition S P) : LogInv (filterRepeatedStateUpdates m t).1 := by
  unfold filterRepeatedStateUpdates
  split
  · dsimp only
    exact handleTransitionRejection_logInv h _
  · exact h

theorem filterUpdateStateMismatch_logInv {m : Machine S P} (h : LogInv m)
    (d : TStateData S P) : LogInv (filterUpdateStateMismatch m d).1 := by
  unfold filterUpdateStateMismatch
  split
  · dsimp only
    exact handleTransitionRejection_logInv h _
  · exact h

theorem updateFilter_logInv {m : Machine S P} (h : LogInv m) (t : StateTransition S P)
    (d : TStateData S P) : LogInv (updateFilter m t d).1 := by
  unfold updateFilter
  split
  next m1 e1 heq =>
    have h1 := filterUpdateFSMInit_logInv h
    rw [heq] at h1; exact h1
  next m1 e1 heq =>
    have h1 : LogInv m1 := by
      have := filterUpdateFSMInit_logInv h
      rw [heq] at this; exact this
    split
    next m2 e2 heq2 =>
      have h2 := filterRepeatedStateUpdates_logInv h1 t
      rw [heq2] at h2; exact h2
    next m2 e2 heq2 =>
      have h2 : LogInv m2 := by
        have := filterRepeatedStateUpdates_logInv h1 t
        rw [heq2] at this; exact this
      split
      next m3 e3 heq3 =>
        have h3 := filterUpdateStateMismatch_logInv h2 d
        rw [heq3] at h3; exact h3
      next m3 e3 heq3 =>
        have h3 : LogInv m3 := by
          have := filterUpdateStateMismatch_logInv h2 d
          rw [heq3] at this; exact this
        split
        next m4 e4 r heq4 =>
          have h4 := executeOnUpdateHookCallback_logInv h3 d
          rw [heq4] at h4; exact h4

theorem changeFilter_logInv {m : Machine S P} (h : LogInv m) (d : TStateData S P) :
    LogInv (changeFilter m d).1 := by
  unfold changeFilter
  split
  · dsimp only
    exact handleTransitionRejection_logInv h _
  · split
    · split
      · split
        next m1 e1 heq1 =>
          have h1 : LogInv m1 := by
            have := executeOnLeaveHookCallback_logInv h ‹_› d
            rw [heq1] at this; exact this
          split
          next m2 e2 r heq2 =>
            have h2 := executeOnEnterHookCallback_logInv h1 d
            rw [heq2] at h2; exact h2
        next m1 e1 r hne heq1 =>
          have h1 := executeOnLeaveHookCallback_logInv h ‹_› d
          rw [heq1] at h1; exact h1
      · dsimp only
        exact handleTransitionRejection_logInv h _
    · split
      · split
        next m2 e2 r heq2 =>
          have h2 := executeOnEnterHookCallback_logInv h d
          rw [heq2] at h2; exact h2
      · exact handleTransitionRejection_logInv h _

theorem commitTransition_logInv {m : Machine S P} (h : LogInv m) (t : StateTransition S P) :
    LogInv (commitTransition m t).1 := by
  unfold commitTransition
  dsimp only
  exact (writeToDebugLog_logInv h _).transport rfl rfl rfl

theorem resetInternalObservables_logInv {m : Machine S P} (h : LogInv m)
    (resetData : StateTransition S P) (logReset : Bool) :
    LogInv (resetInternalObservables m resetData logReset) := by
  unfold resetInternalObservables
  dsimp only
  split
  · exact writeToDebugLog_logInv (LogInv_set_queue h _ _) _
  · exact LogInv_set_queue h _ _

theorem handleUnknownError_logInv {m : Machine S P} (h : LogInv m) :
    LogInv (handleUnknownError m).1 := by
  unfold handleUnknownError
  exact resetInternalObservables_logInv (writeToDebugLog_logInv h _) _ _

theorem processOne_logInv {m : Machine S P} (h : LogInv m) (i : Nat)
    (t : StateTransition S P) : LogInv (processOne m i t).1 := by
  rcases t with ⟨tt, sd⟩
  cases sd with
  | fsmInit => exact h
  | custom d =>
    cases tt with
    | update =>
      rw [processOne_update]
      rcases hres : (updateFilter m { transitionType := .update, stateData := .custom d }
          d).2.2 with _ | r | _ <;> simp only [finishProcess]
      · exact commitTransition_logInv (updateFilter_logInv h _ d) _
      · exact updateFilter_logInv h _ d
      · exact handleUnknownError_logInv (updateFilter_logInv h _ d)
    | change =>
      rw [processOne_change]
      rcases hres : (changeFilter m d).2.2 with _ | r | _ <;> simp only [finishProcess]
      · exact commitTransition_logInv (changeFilter_logInv h d) _
      · exact changeFilter_logInv h d
      · exact handleUnknownError_logInv (changeFilter_logInv h d)
    | init => exact h
    | override => exact h
    | recover => exact h
    | reset => exact h

theorem drainAll_logInv {m : Machine S P} (h : LogInv m) (fuel : Nat) :
    LogInv (drainAll fuel m).1 := by
  induction fuel generalizing m with
  | zero => exact h
  | succ n ih =>
    unfold drainAll
    split
    · exact h
    · dsimp only
      exact ih (processOne_logInv (LogInv_set_pending h _) _ _)

theorem runOp_logInv {m : Machine S P} (h : LogInv m) (fuel : Nat) (op : FsmOp S P) :
    LogInv (runOp fuel m op).1 := by
  cases op with
  | submitUpdate d =>
    simp only [runOp]
    split
    · exact submitTransition_logInv h _ _
    · dsimp only
      exact drainAll_logInv (submitTransition_logInv h _ _) fuel
  | submitChange d =>
    simp only [runOp]
    split
    · exact submitTransition_logInv h _ _
    · dsimp only
      exact drainAll_logInv (submitTransition_logInv h _ _) fuel
  | overrideOp o resetLog =>
    simp only [runOp]
    split
    · exact handleTransitionRejection_logInv h _
    · split
      · exact h
      · dsimp only
        refine LogInv_set_committed (writeToDebugLog_logInv ?_ _) _ _
        split
        · exact capDebugLogLength_logInv (resetInternalObservables_logInv h _ _) _
        · exact resetInternalObservables_logInv h _ _
  | destroyOp =>
    simp only [runOp]
    split
    · exact h
    · exact h.transport rfl rfl rfl

theorem runOps_logInv {m : Machine S P} (h : LogInv m) (fuel : Nat)
    (ops : List (FsmOp S P)) : LogInv (runOps fuel m ops).1 := by
  induction ops generalizing m with
  | nil => exact h
  | cons op rest ih =>
    unfold runOps
    dsimp only
    exact ih (runOp_logInv h fuel op)

theorem construct_logInv (sm : StateMap S P) (pcfg : PartialFsmConfig S P) (dev : Bool) :
    LogInv (construct sm pcfg dev).1 := by
  unfold construct
  dsimp only
  refine writeToDebugLog_logInv ?_ _
  refine ⟨?_, ?_, ?_⟩
  · dsimp only
    split
    next hp => rw [hp]; rfl
    next hp => simpa using hp
  · intro hnone
    rfl
  · intro l hl
    dsimp only at hl
    split at hl
    · have : l = [] := by simpa using hl.symm
      subst this
      exact ⟨List.nil_suffix, fun k hk => by simp⟩
    · exact absurd hl (by simp)

/-- Claim C8: with a positive finite buffer count n, after any run the
debug log exists, never exceeds n entries, and always holds the most
recently stored entries in their original order (it is a suffix of the
full append history); with buffer count 0 the log never exists and
nothing is ever stored. -/
theorem claim_C8 (sm : StateMap S P) (pcfg : PartialFsmConfig S P) (dev : Bool)
    (fuel : Nat) (ops : List (FsmOp S P)) (n : Nat) :
    ((extractFsmConfig pcfg dev).debugLogBufferCount = .fin n → 0 < n →
      ∃ l, (runOps fuel (construct sm pcfg dev).1 ops).1.debugLog = some l ∧
        l.length ≤ n ∧ l <:+ (runOps fuel (construct sm pcfg dev).1 ops).1.logHistory) ∧
    ((extractFsmConfig pcfg dev).debugLogBufferCount = .fin 0 →
      (runOps fuel (construct sm pcfg dev).1 ops).1.debugLog = none ∧
      (runOps fuel (construct sm pcfg dev).1 ops).1.logHistory = []) := by
  have hinv := runOps_logInv (construct_logInv sm pcfg dev) fuel ops
  have hcfg : (runOps fuel (construct sm pcfg dev).1 ops).1.cfg =
      extractFsmConfig pcfg dev := by
    rw [runOps_cfg, construct_cfg]
  obtain ⟨a, b, c⟩ := hinv
  constructor
  · intro hbc hpos
    rw [hcfg, hbc] at a
    have hpos2 : LogBufferCount.isPos (.fin n) = true := by
      simp [LogBufferCount.isPos, hpos]
    rw [hpos2] at a
    rcases hlog : (runOps fuel (construct sm pcfg dev).1 ops).1.debugLog with _ | l
    · rw [hlog] at a; simp at a
    · obtain ⟨cs, cl⟩ := c l hlog
      exact ⟨l, rfl, cl n (by rw [hcfg]; exact hbc), cs⟩
  · intro hbc
    rw [hcfg, hbc] at a
    have hz : LogBufferCount.isPos (.fin 0) = false := by
      simp [LogBufferCount.isPos]
    rw [hz] at a
    rcases hlog : (runOps fuel (construct sm pcfg dev).1 ops).1.debugLog with _ | l
    · exact ⟨rfl, b hlog⟩
    · rw [hlog] at a; simp at a

/-- Witness for C8: a buffer count of two keeps only the last two
entries of the demonstration run, and a buffer count of zero logs
nothing. -/
theorem claim_C8_witness :
    (∃ l, (runOps 5 (construct demoMap { debugLogBufferCount := some (.fin 2) }
        true).1 [.submitChange da1, .submitUpdate da2, .submitChange db5]).1.debugLog = some l ∧
      l.length ≤ 2 ∧
      l <:+ (runOps 5 (construct demoMap { debugLogBufferCount := some (.fin 2) }
        true).1 [.submitChange da1, .submitUpdate da2, .submitChange db5]).1.logHistory) ∧
    (runOps 5 (construct demoMap { debugLogBufferCount := some (.fin 0) }
        true).1 [.submitChange da1]).1.debugLog = none := by
  constructor
  · exact (claim_C8 demoMap { debugLogBufferCount := some (.fin 2) } true 5
      [.submitChange da1, .submitUpdate da2, .submitChange db5] 2).1 rfl (by decide)
  · exact ((claim_C8 demoMap { debugLogBufferCount := some (.fin 0) } true 5
      [.submitChange da1] 0).2 rfl).1

/-! The committed-stream invariant and claim C1. -/

theorem EmitInv.transportE {m mNew : Machine S P} (h : EmitInv m)
    (h1 : mNew.emitted = m.emitted) (h2 : mNew.committed = m.committed) :
    EmitInv mNew := by
  obtain ⟨a, b⟩ := h
  exact ⟨by rw [h1, h2]; exact a, by rw [h1]; exact b⟩

theorem EmitInv_of_coreSame {m mNew : Machine S P} (hc : CoreSame m mNew) (h : EmitInv m) :
    EmitInv mNew :=
  h.transportE hc.emitted hc.committed

theorem filterRepeatedStateUpdates_true {m mNew : Machine S P} {t : StateTransition S P}
    {eNew : List (Event S P)}
    (h : filterRepeatedStateUpdates m t = (mNew, eNew, true)) :
    ¬(m.cfg.filterRepeatUpdates = true ∧ m.committed.stateData = t.stateData) := by
  unfold filterRepeatedStateUpdates at h
  split at h
  · dsimp only at h
    simp at h
  next hcond => exact hcond

theorem updateFilter_pass_ne {m : Machine S P} {t : StateTransition S P}
    {d : TStateData S P} (h : (updateFilter m t d).2.2 = .pass)
    (hflag : m.cfg.filterRepeatUpdates = true) :
    m.committed.stateData ≠ t.stateData := by
  unfold updateFilter at h
  split at h
  · simp at h
  next m1 e1 heq =>
    have hm1 : CoreSame m m1 := by
      have := filterUpdateFSMInit_coreSame m
      rw [heq] at this; exact this
    split at h
    · simp at h
    next m2 e2 heq2 =>
      have hni := filterRepeatedStateUpdates_true heq2
      intro hEq
      exact hni ⟨by rw [hm1.cfg]; exact hflag, by rw [hm1.committed]; exact hEq⟩

theorem changeFilter_pass_ne {m : Machine S P} {d : TStateData S P}
    (h : (changeFilter m d).2.2 = .pass) :
    m.committed.stateData ≠ StateData.custom d := by
  unfold changeFilter at h
  split at h
  · simp at h
  next hcond =>
    intro hEq
    exact hcond (by rw [hEq]; rfl)

theorem EmitInv_set_pending {m : Machine S P} (h : EmitInv m)
    (q : List (Nat × StateTransition S P)) : EmitInv { m with pending := q } :=
  h.transportE rfl rfl

theorem processOne_emitInv {m : Machine S P} (h : EmitInv m)
    (hflag : m.cfg.filterRepeatUpdates = true) (i : Nat) (t : StateTransition S P) :
    EmitInv (processOne m i t).1 := by
  rcases t with ⟨tt, sd⟩
  cases sd with
  | fsmInit => exact h
  | custom d =>
    cases tt with
    | update =>
      rw [processOne_update]
      rcases hres : (updateFilter m { transitionType := .update, stateData := .custom d }
          d).2.2 with _ | r | _ <;> simp only [finishProcess]
      · have hcs := updateFilter_coreSame m
          { transitionType := .update, stateData := .custom d } d
        have hne := updateFilter_pass_ne hres hflag
        constructor
        · rw [commitTransition_emitted, commitTransition_committed]
          exact List.getLast?_concat _
        · rw [commitTransition_emitted, hcs.emitted]
          rw [List.chain'_append]
          refine ⟨h.2, List.chain'_singleton _, ?_⟩
          intro x hx y hy
          rw [h.1] at hx
          simp only [Option.mem_def, Option.some.injEq] at hx
          simp only [List.head?_cons, Option.mem_def, Option.some.injEq] at hy
          rw [← hx, ← hy]
          exact hne
      · exact EmitInv_of_coreSame (updateFilter_coreSame m _ d) h
      · exact EmitInv_of_coreSame ((updateFilter_coreSame m _ d).compC
          (handleUnknownError_coreSame _)) h
    | change =>
      rw [processOne_change]
      rcases hres : (changeFilter m d).2.2 with _ | r | _ <;> simp only [finishProcess]
      · have hcs := changeFilter_coreSame m d
        have hne := changeFilter_pass_ne hres
        constructor
        · rw [commitTransition_emitted, commitTransition_committed]
          exact List.getLast?_concat _
        · rw [commitTransition_emitted, hcs.emitted]
          rw [List.chain'_append]
          refine ⟨h.2, List.chain'_singleton _, ?_⟩
          intro x hx y hy
          rw [h.1] at hx
          simp only [Option.mem_def, Option.some.injEq] at hx
          simp only [List.head?_cons, Option.mem_def, Option.some.injEq] at hy
          rw [← hx, ← hy]
          exact hne
      · exact EmitInv_of_coreSame (changeFilter_coreSame m d) h
      · exact EmitInv_of_coreSame ((changeFilter_coreSame m d).compC
          (handleUnknownError_coreSame _)) h
    | init => exact h
    | override => exact h
    | recover => exact h
    | reset => exact h

theorem drainAll_emitInv {m : Machine S P} (h : EmitInv m)
    (hflag : m.cfg.filterRepeatUpdates = true) (fuel : Nat) :
    EmitInv (drainAll fuel m).1 := by
  induction fuel generalizing m with
  | zero => exact h
  | succ n ih =>
    unfold drainAll
    split
    · exact h
    · dsimp only
      refine ih (processOne_emitInv (EmitInv_set_pending h _) (by exact hflag) _ _) ?_
      rw [processOne_cfg]
      exact hflag

theorem runOp_emitInv {m : Machine S P} (h : EmitInv m)
    (hflag : m.cfg.filterRepeatUpdates = true) (fuel : Nat) (op : FsmOp S P)
    (hop : op.isOverride = false) : EmitInv (runOp fuel m op).1 := by
  cases op with
  | submitUpdate d =>
    simp only [runOp]
    split
    · exact EmitInv_of_coreSame (submitTransition_coreSame m _ _) h
    · dsimp only
      refine drainAll_emitInv (EmitInv_of_coreSame (submitTransition_coreSame m _ _) h) ?_ fuel
      rw [(submitTransition_coreSame m _ _).cfg]
      exact hflag
  | submitChange d =>
    simp only [runOp]
    split
    · exact EmitInv_of_coreSame (submitTransition_coreSame m _ _) h
    · dsimp only
      refine drainAll_emitInv (EmitInv_of_coreSame (submitTransition_coreSame m _ _) h) ?_ fuel
      rw [(submitTransition_coreSame m _ _).cfg]
      exact hflag
  | overrideOp o resetLog => simp [FsmOp.isOverride] at hop
  | destroyOp =>
    simp only [runOp]
    split
    · exact h
    · exact h.transportE rfl rfl

theorem runOps_emitInv {m : Machine S P} (h : EmitInv m)
    (hflag : m.cfg.filterRepeatUpdates = true) (fuel : Nat) (ops : List (FsmOp S P))
    (hops : ∀ op ∈ ops, FsmOp.isOverride op = false) :
    EmitInv (runOps fuel m ops).1 := by
  induction ops generalizing m with
  | nil => exact h
  | cons op rest ih =>
    unfold runOps
    dsimp only
    refine ih (runOp_emitInv h hflag fuel op (hops op (List.mem_cons_self op rest))) ?_ ?_
    · rw [runOp_cfg]
      exact hflag
    · intro op2 hmem
      exact hops op2 (List.mem_cons_of_mem _ hmem)

theorem construct_emitInv (sm : StateMap S P) (pcfg : PartialFsmConfig S P) (dev : Bool) :
    EmitInv (construct sm pcfg dev).1 := by
  unfold construct
  dsimp only
  refine EmitInv.transportE ⟨?_, ?_⟩ (writeToDebugLog_emitted _ _) (writeToDebugLog_committed _ _)
  · rfl
  · exact List.chain'_singleton _

/-- Claim C1 (amended): with filterRepeatUpdates resolved to true,
any run whose operations contain no override ever makes the
committed-state stream (the emission history, replay seed included)
carry two consecutive entries with equal tag and deep-equal payload:
consecutive emissions always differ. -/
theorem claim_C1 (sm : StateMap S P) (pcfg : PartialFsmConfig S P) (dev : Bool)
    (fuel : Nat) (ops : List (FsmOp S P))
    (hflag : (extractFsmConfig pcfg dev).filterRepeatUpdates = true)
    (hops : ∀ op ∈ ops, FsmOp.isOverride op = false) :
    List.Chain' (fun a b => a ≠ b)
      (runOps fuel (construct sm pcfg dev).1 ops).1.emitted := by
  refine (runOps_emitInv (construct_emitInv sm pcfg dev) ?_ fuel ops hops).2
  rw [construct_cfg]
  exact hflag

set_option maxHeartbeats 2000000 in
/-- Counterexample to C1 as frozen: with filterRepeatUpdates true, two
dev-mode overrides to the same state data put two consecutive equal
entries on the committed-state stream. -/
theorem claim_C1_counterexample :
    (extractFsmConfig demoCfg true).filterRepeatUpdates = true ∧
    ¬ List.Chain' (fun a b => a ≠ b)
      (runOps 5 (construct demoMap demoCfg true).1
        [FsmOp.overrideOp ⟨da1, false⟩ false,
         FsmOp.overrideOp ⟨da1, false⟩ false]).1.emitted := by
  constructor
  · rfl
  · have he : (runOps 5 (construct demoMap demoCfg true).1
        [FsmOp.overrideOp ⟨da1, false⟩ false,
         FsmOp.overrideOp ⟨da1, false⟩ false]).1.emitted =
      [StateData.fsmInit, StateData.custom da1, StateData.custom da1] := by decide
    rw [he]
    intro h
    simp [List.chain'_cons] at h

/-- Witness for the amended C1 on a run exercising a filtered repeat
update. -/
theorem claim_C1_witness :
    List.Chain' (fun a b => a ≠ b)
      (runOps 5 (construct demoMap demoCfg true).1
        [.submitChange da1, .submitUpdate da2, .submitUpdate da2,
         .submitChange db5]).1.emitted := by
  refine claim_C1 demoMap demoCfg true 5
    [.submitChange da1, .submitUpdate da2, .submitUpdate da2, .submitChange db5]
    ?_ ?_
  · rfl
  · decide

/-! The serialization checker: claim C3. -/

theorem serRun_cons (st : Option (Nat × StateTransition S P) × List Nat)
    (e : Event S P) (rest : List (Event S P)) :
    serRun st (e :: rest) =
      match serStep st e with
      | none => none
      | some st2 => serRun st2 rest := rfl

theorem serRun_append (st : Option (Nat × StateTransition S P) × List Nat)
    (l1 l2 : List (Event S P)) :
    serRun st (l1 ++ l2) =
      match serRun st l1 with
      | none => none
      | some st2 => serRun st2 l2 := by
  induction l1 generalizing st with
  | nil => rfl
  | cons e rest ih =>
    rw [List.cons_append, serRun_cons, serRun_cons]
    cases serStep st e with
    | none => rfl
    | some st2 => exact ih st2

theorem serRun_cons_some (st st2 : Option (Nat × StateTransition S P) × List Nat)
    (e : Event S P) (rest : List (Event S P)) (h : serStep st e = some st2) :
    serRun st (e :: rest) = serRun st2 rest := by
  rw [serRun_cons, h]

theorem serRun_append_some (st st2 : Option (Nat × StateTransition S P) × List Nat)
    (l1 l2 : List (Event S P)) (h : serRun st l1 = some st2) :
    serRun st (l1 ++ l2) = serRun st2 l2 := by
  rw [serRun_append, h]

theorem serStep_neutral (st : Option (Nat × StateTransition S P) × List Nat)
    (e : Event S P) (h : Event.serNeutral e = true) : serStep st e = some st := by
  rcases st with ⟨op, seen⟩
  cases op <;> cases e <;> simp_all [Event.serNeutral, serStep]

theorem serRun_neutral (st : Option (Nat × StateTransition S P) × List Nat)
    (l : List (Event S P)) (h : ∀ e ∈ l, Event.serNeutral e = true) :
    serRun st l = some st := by
  induction l generalizing st with
  | nil => rfl
  | cons e rest ih =>
    rw [serRun_cons_some st st e rest (serStep_neutral st e (h e (List.mem_cons_self e rest)))]
    exact ih st (fun e2 he2 => h e2 (List.mem_cons_of_mem _ he2))

theorem serStep_hookCalled (j : Nat) (snap : StateTransition S P) (seen : List Nat)
    (k : HookKind) (obs : StateTransition S P) (hobs : obs = snap) :
    serStep (some (j, snap), seen) (.hookCalled k obs) = some (some (j, snap), seen) := by
  subst hobs
  simp [serStep]

theorem serStep_procBegin (i : Nat) (snap : StateTransition S P) (seen : List Nat)
    (hi : i ∈ seen) :
    serStep (none, seen) (.procBegin i snap) = some (some (i, snap), seen) := by
  simp [serStep, hi]

theorem serStep_procEnd (i : Nat) (snap : StateTransition S P) (seen : List Nat) :
    serStep (some (i, snap), seen) (.procEnd i) = some (none, seen) := by
  simp [serStep]

theorem handleTransitionRejection_serNeutral (m : Machine S P) (tr : TransitionRejection) :
    ∀ e ∈ (handleTransitionRejection m tr).2, Event.serNeutral e = true := by
  intro e he
  rcases mem_handleTransitionRejection_snd he with ⟨sev, rfl⟩ | rfl <;> rfl

theorem handleTransitionRejection_serRun (m : Machine S P) (tr : TransitionRejection)
    (st : Option (Nat × StateTransition S P) × List Nat) :
    serRun st (handleTransitionRejection m tr).2 = some st :=
  serRun_neutral st _ (handleTransitionRejection_serNeutral m tr)

theorem handleTransitionRejection_pendSeen {m : Machine S P} {tr : TransitionRejection}
    {seen : List Nat} (hps : PendSeen m seen) :
    PendSeen (handleTransitionRejection m tr).1 seen := by
  intro p hp
  exact hps p (by rwa [(handleTransitionRejection_logOnly m tr).pending] at hp)

theorem submitTransition_ser (m : Machine S P) (t : StateTransition S P) (msg : String)
    (op : Option (Nat × StateTransition S P)) (seen : List Nat) (hps : PendSeen m seen) :
    ∃ seen2, serRun (op, seen) (submitTransition m t msg).2 = some (op, seen2) ∧
      PendSeen (submitTransition m t msg).1 seen2 := by
  unfold submitTransition
  split
  · exact ⟨seen, handleTransitionRejection_serRun .., handleTransitionRejection_pendSeen hps⟩
  · refine ⟨seen ++ [m.nextId], ?_, ?_⟩
    · rfl
    · intro p hp
      dsimp only at hp
      rcases List.mem_append.mp hp with h | h
      · exact List.mem_append_left _ (hps p h)
      · rw [List.mem_singleton.mp h]
        exact List.mem_append_right _ (List.mem_singleton.mpr rfl)

theorem applySubmits_ser (m : Machine S P) (l : List (HookSubmit S P))
    (op : Option (Nat × StateTransition S P)) (seen : List Nat) (hps : PendSeen m seen) :
    ∃ seen2, serRun (op, seen) (applySubmits m l).2 = some (op, seen2) ∧
      PendSeen (applySubmits m l).1 seen2 := by
  induction l generalizing m seen with
  | nil => exact ⟨seen, rfl, hps⟩
  | cons s rest ih =>
    unfold applySubmits
    dsimp only
    obtain ⟨s1, hr1, hp1⟩ := submitTransition_ser m _ _ op seen hps
    obtain ⟨s2, hr2, hp2⟩ := ih _ s1 hp1
    refine ⟨s2, ?_, hp2⟩
    rw [serRun_append_some _ _ _ _ hr1]
    exact hr2

theorem executeOnLeaveHookCallback_ser (m : Machine S P) (p d : TStateData S P)
    (j : Nat) (snap : StateTransition S P) (seen : List Nat)
    (hsnap : m.committed = snap) (hps : PendSeen m seen) :
    ∃ seen2, serRun (some (j, snap), seen) (executeOnLeaveHookCallback m p d).2.1 =
        some (some (j, snap), seen2) ∧
      PendSeen (executeOnLeaveHookCallback m p d).1 seen2 := by
  unfold executeOnLeaveHookCallback
  split
  · exact ⟨seen, rfl, hps⟩
  · dsimp only
    split
    · dsimp only
      obtain ⟨s1, hr1, hp1⟩ := applySubmits_ser m _ (some (j, snap)) seen hps
      refine ⟨s1, ?_, handleTransitionRejection_pendSeen hp1⟩
      rw [List.cons_append,
        serRun_cons_some _ _ _ _ (serStep_hookCalled j snap seen _ _ hsnap),
        serRun_append_some _ _ _ _ hr1]
      exact handleTransitionRejection_serRun _ _ _
    · obtain ⟨s1, hr1, hp1⟩ := applySubmits_ser m _ (some (j, snap)) seen hps
      refine ⟨s1, ?_, hp1⟩
      rw [serRun_cons_some _ _ _ _ (serStep_hookCalled j snap seen _ _ hsnap)]
      exact hr1
    · obtain ⟨s1, hr1, hp1⟩ := applySubmits_ser m _ (some (j, snap)) seen hps
      refine ⟨s1, ?_, hp1⟩
      rw [serRun_cons_some _ _ _ _ (serStep_hookCalled j snap seen _ _ hsnap)]
      exact hr1

theorem executeOnEnterHookCallback_ser (m : Machine S P) (d : TStateData S P)
    (j : Nat) (snap : StateTransition S P) (seen : List Nat)
    (hsnap : m.committed = snap) (hps : PendSeen m seen) :
    ∃ seen2, serRun (some (j, snap), seen) (executeOnEnterHookCallback m d).2.1 =
        some (some (j, snap), seen2) ∧
      PendSeen (executeOnEnterHookCallback m d).1 seen2 := by
  unfold executeOnEnterHookCallback
  split
  · exact ⟨seen, rfl, hps⟩
  · dsimp only
    split
    · dsimp only
      obtain ⟨s1, hr1, hp1⟩ := applySubmits_ser m _ (some (j, snap)) seen hps
      refine ⟨s1, ?_, handleTransitionRejection_pendSeen hp1⟩
      rw [List.cons_append,
        serRun_cons_some _ _ _ _ (serStep_hookCalled j snap seen _ _ hsnap),
        serRun_append_some _ _ _ _ hr1]
      exact handleTransitionRejection_serRun _ _ _
    · obtain ⟨s1, hr1, hp1⟩ := applySubmits_ser m _ (some (j, snap)) seen hps
      refine ⟨s1, ?_, hp1⟩
      rw [serRun_cons_some _ _ _ _ (serStep_hookCalled j snap seen _ _ hsnap)]
      exact hr1
    · obtain ⟨s1, hr1, hp1⟩ := applySubmits_ser m _ (some (j, snap)) seen hps
      refine ⟨s1, ?_, hp1⟩
      rw [serRun_cons_some _ _ _ _ (serStep_hookCalled j snap seen _ _ hsnap)]
      exact hr1

theorem executeOnUpdateHookCallback_ser (m : Machine S P) (d : TStateData S P)
    (j : Nat) (snap : StateTransition S P) (seen : List Nat)
    (hsnap : m.committed = snap) (hps : PendSeen m seen) :
    ∃ seen2, serRun (some (j, snap), seen) (executeOnUpdateHookCallback m d).2.1 =
        some (some (j, snap), seen2) ∧
      PendSeen (executeOnUpdateHookCallback m d).1 seen2 := by
  unfold executeOnUpdateHookCallback
  split
  · exact ⟨seen, rfl, hps⟩
  · dsimp only
    split
    · dsimp only
      obtain ⟨s1, hr1, hp1⟩ := applySubmits_ser m _ (some (j, snap)) seen hps
      refine ⟨s1, ?_, handleTransitionRejection_pendSeen hp1⟩
      rw [List.cons_append,
        serRun_cons_some _ _ _ _ (serStep_hookCalled j snap seen _ _ hsnap),
        serRun_append_some _ _ _ _ hr1]
      exact handleTransitionRejection_serRun _ _ _
    · obtain ⟨s1, hr1, hp1⟩ := applySubmits_ser m _ (some (j, snap)) seen hps
      refine ⟨s1, ?_, hp1⟩
      rw [serRun_cons_some _ _ _ _ (serStep_hookCalled j snap seen _ _ hsnap)]
      exact hr1
    · obtain ⟨s1, hr1, hp1⟩ := applySubmits_ser m _ (some (j, snap)) seen hps
      refine ⟨s1, ?_, hp1⟩
      rw [serRun_cons_some _ _ _ _ (serStep_hookCalled j snap seen _ _ hsnap)]
      exact hr1

theorem filterUpdateFSMInit_ser (m : Machine S P)
    (st : Option (Nat × StateTransition S P) × List Nat) :
    serRun st (filterUpdateFSMInit m).2.1 = some st ∧
      (filterUpdateFSMInit m).1.pending = m.pending := by
  unfold filterUpdateFSMInit
  split
  · dsimp only
    exact ⟨handleTransitionRejection_serRun _ _ _,
      (handleTransitionRejection_logOnly m _).pending⟩
  · exact ⟨rfl, rfl⟩

theorem filterRepeatedStateUpdates_ser (m : Machine S P) (t : StateTransition S P)
    (st : Option (Nat × StateTransition S P) × List Nat) :
    serRun st (filterRepeatedStateUpdates m t).2.1 = some st ∧
      (filterRepeatedStateUpdates m t).1.pending = m.pending := by
  unfold filterRepeatedStateUpdates
  split
  · dsimp only
    exact ⟨handleTransitionRejection_serRun _ _ _,
      (handleTransitionRejection_logOnly m _).pending⟩
  · exact ⟨rfl, rfl⟩

theorem filterUpdateStateMismatch_ser (m : Machine S P) (d : TStateData S P)
    (st : Option (Nat × StateTransition S P) × List Nat) :
    serRun st (filterUpdateStateMismatch m d).2.1 = some st ∧
      (filterUpdateStateMismatch m d).1.pending = m.pending := by
  unfold filterUpdateStateMismatch
  split
  · dsimp only
    exact ⟨handleTransitionRejection_serRun _ _ _,
      (handleTransitionRejection_logOnly m _).pending⟩
  · exact ⟨rfl, rfl⟩

theorem updateFilter_ser (m : Machine S P) (t : StateTransition S P) (d : TStateData S P)
    (j : Nat) (seen : List Nat) (hps : PendSeen m seen) :
    ∃ seen2, serRun (some (j, m.committed), seen) (updateFilter m t d).2.1 =
        some (some (j, m.committed), seen2) ∧
      PendSeen (updateFilter m t d).1 seen2 := by
  unfold updateFilter
  split
  next m1 e1 heq =>
    obtain ⟨hrA, hpdA⟩ := filterUpdateFSMInit_ser m (some (j, m.committed), seen)
    rw [heq] at hrA hpdA
    have hr1 : serRun (some (j, m.committed), seen) e1 =
        some (some (j, m.committed), seen) := hrA
    have hq1 : m1.pending = m.pending := hpdA
    refine ⟨seen, hr1, ?_⟩
    intro q hq
    rw [hq1] at hq
    exact hps q hq
  next m1 e1 heq =>
    have h1 : CoreSame m m1 := by
      have := filterUpdateFSMInit_coreSame m
      rw [heq] at this; exact this
    obtain ⟨hrA, hpdA⟩ := filterUpdateFSMInit_ser m (some (j, m.committed), seen)
    rw [heq] at hrA hpdA
    have hr1 : serRun (some (j, m.committed), seen) e1 =
        some (some (j, m.committed), seen) := hrA
    have hq1 : m1.pending = m.pending := hpdA
    split
    next m2 e2 heq2 =>
      obtain ⟨hrB, hpdB⟩ := filterRepeatedStateUpdates_ser m1 t (some (j, m.committed), seen)
      rw [heq2] at hrB hpdB
      have hr2 : serRun (some (j, m.committed), seen) e2 =
          some (some (j, m.committed), seen) := hrB
      have hq2 : m2.pending = m1.pending := hpdB
      refine ⟨seen, ?_, ?_⟩
      · rw [serRun_append_some _ _ _ _ hr1]
        exact hr2
      · intro q hq
        rw [hq2, hq1] at hq
        exact hps q hq
    next m2 e2 heq2 =>
      have h2 : CoreSame m1 m2 := by
        have := filterRepeatedStateUpdates_coreSame m1 t
        rw [heq2] at this; exact this
      obtain ⟨hrB, hpdB⟩ := filterRepeatedStateUpdates_ser m1 t (some (j, m.committed), seen)
      rw [heq2] at hrB hpdB
      have hr2 : serRun (some (j, m.committed), seen) e2 =
          some (some (j, m.committed), seen) := hrB
      have hq2 : m2.pending = m1.pending := hpdB
      split
      next m3 e3 heq3 =>
        obtain ⟨hrC, hpdC⟩ := filterUpdateStateMismatch_ser m2 d (some (j, m.committed), seen)
        rw [heq3] at hrC hpdC
        have hr3 : serRun (some (j, m.committed), seen) e3 =
            some (some (j, m.committed), seen) := hrC
        have hq3 : m3.pending = m2.pending := hpdC
        refine ⟨seen, ?_, ?_⟩
        · rw [serRun_append_some _ _ _ _ (by
            rw [serRun_append_some _ _ _ _ hr1]; exact hr2)]
          exact hr3
        · intro q hq
          rw [hq3, hq2, hq1] at hq
          exact hps q hq
      next m3 e3 heq3 =>
        have h3 : CoreSame m2 m3 := by
          have := filterUpdateStateMismatch_coreSame m2 d
          rw [heq3] at this; exact this
        obtain ⟨hrC, hpdC⟩ := filterUpdateStateMismatch_ser m2 d (some (j, m.committed), seen)
        rw [heq3] at hrC hpdC
        have hr3 : serRun (some (j, m.committed), seen) e3 =
            some (some (j, m.committed), seen) := hrC
        have hq3 : m3.pending = m2.pending := hpdC
        split
        next m4 e4 r heq4 =>
          have hsnap3 : m3.committed = m.committed := by
            rw [h3.committed, h2.committed, h1.committed]
          have hps3 : PendSeen m3 seen := by
            intro q hq
            rw [hq3, hq2, hq1] at hq
            exact hps q hq
          obtain ⟨s4, hr4, hp4⟩ :=
            executeOnUpdateHookCallback_ser m3 d j m.committed seen hsnap3 hps3
          rw [heq4] at hr4 hp4
          have hr4b : serRun (some (j, m.committed), seen) e4 =
              some (some (j, m.committed), s4) := hr4
          have hp4b : PendSeen m4 s4 := hp4
          refine ⟨s4, ?_, hp4b⟩
          have hr12 : serRun (some (j, m.committed), seen) (e1 ++ e2) =
              some (some (j, m.committed), seen) := by
            rw [serRun_append_some _ _ _ _ hr1]; exact hr2
          have hr123 : serRun (some (j, m.committed), seen) (e1 ++ e2 ++ e3) =
              some (some (j, m.committed), seen) := by
            rw [serRun_append_some _ _ _ _ hr12]; exact hr3
          rw [serRun_append_some _ _ _ _ hr123]
          exact hr4b

theorem changeFilter_ser (m : Machine S P) (d : TStateData S P)
    (j : Nat) (seen : List Nat) (hps : PendSeen m seen) :
    ∃ seen2, serRun (some (j, m.committed), seen) (changeFilter m d).2.1 =
        some (some (j, m.committed), seen2) ∧
      PendSeen (changeFilter m d).1 seen2 := by
  unfold changeFilter
  split
  · dsimp only
    exact ⟨seen, handleTransitionRejection_serRun _ _ _, handleTransitionRejection_pendSeen hps⟩
  · split
    next p hpeq =>
      split
      · split
        next m1 e1 heq =>
          have h1 : CoreSame m m1 := by
            have := executeOnLeaveHookCallback_coreSame m p d
            rw [heq] at this; exact this
          obtain ⟨s1, hrL, hpL⟩ :=
            executeOnLeaveHookCallback_ser m p d j m.committed seen rfl hps
          rw [heq] at hrL hpL
          have hrLb : serRun (some (j, m.committed), seen) e1 =
              some (some (j, m.committed), s1) := hrL
          have hpLb : PendSeen m1 s1 := hpL
          split
          next m2 e2 r heq2 =>
            obtain ⟨s2, hrE, hpE⟩ :=
              executeOnEnterHookCallback_ser m1 d j m.committed s1 h1.committed hpLb
            rw [heq2] at hrE hpE
            have hrEb : serRun (some (j, m.committed), s1) e2 =
                some (some (j, m.committed), s2) := hrE
            have hpEb : PendSeen m2 s2 := hpE
            refine ⟨s2, ?_, hpEb⟩
            have hr0 : serRun (some (j, m.committed), seen)
                [Event.nextChangeEmitted (some p.state) d.state] =
                some (some (j, m.committed), seen) := rfl
            have hr01 : serRun (some (j, m.committed), seen)
                ([Event.nextChangeEmitted (some p.state) d.state] ++ e1) =
                some (some (j, m.committed), s1) := by
              rw [serRun_append_some _ _ _ _ hr0]; exact hrLb
            rw [serRun_append_some _ _ _ _ hr01]
            exact hrEb
        next m1 e1 r hne heq =>
          obtain ⟨s1, hrL, hpL⟩ :=
            executeOnLeaveHookCallback_ser m p d j m.committed seen rfl hps
          rw [heq] at hrL hpL
          have hrLb : serRun (some (j, m.committed), seen) e1 =
              some (some (j, m.committed), s1) := hrL
          have hpLb : PendSeen m1 s1 := hpL
          refine ⟨s1, ?_, hpLb⟩
          have hr0 : serRun (some (j, m.committed), seen)
              [Event.nextChangeEmitted (some p.state) d.state] =
              some (some (j, m.committed), seen) := rfl
          rw [serRun_append_some _ _ _ _ hr0]
          exact hrLb
      · dsimp only
        exact ⟨seen, handleTransitionRejection_serRun _ _ _,
          handleTransitionRejection_pendSeen hps⟩
    · split
      · split
        next m2 e2 r heq2 =>
          obtain ⟨s2, hrE, hpE⟩ :=
            executeOnEnterHookCallback_ser m d j m.committed seen rfl hps
          rw [heq2] at hrE hpE
          have hrEb : serRun (some (j, m.committed), seen) e2 =
              some (some (j, m.committed), s2) := hrE
          have hpEb : PendSeen m2 s2 := hpE
          refine ⟨s2, ?_, hpEb⟩
          have hr0 : serRun (some (j, m.committed), seen)
              [Event.canEnterFromChecked none d.state,
               Event.nextChangeEmitted none d.state] =
              some (some (j, m.committed), seen) := rfl
          rw [serRun_append_some _ _ _ _ hr0]
          exact hrEb
      · dsimp only
        refine ⟨seen, ?_, handleTransitionRejection_pendSeen hps⟩
        have hstep : serStep (some (j, m.committed), seen)
            (Event.canEnterFromChecked none d.state) =
            some (some (j, m.committed), seen) := rfl
        rw [serRun_cons_some _ _ _ _ hstep]
        exact handleTransitionRejection_serRun _ _ _

theorem finishProcess_ser (m1 : Machine S P) (i : Nat) (t : StateTransition S P)
    (snap : StateTransition S P) (evs : List (Event S P)) (fr : FilterRes)
    (seen s1 : List Nat) (hi : i ∈ seen)
    (hevs : serRun (some (i, snap), seen) evs = some (some (i, snap), s1))
    (hp1 : PendSeen m1 s1) :
    ∃ seen2, serRun (none, seen)
        (finishProcess m1 i t (.procBegin i snap) evs fr).2.1 = some (none, seen2) ∧
      PendSeen (finishProcess m1 i t (.procBegin i snap) evs fr).1 seen2 := by
  have hend : serRun (some (i, snap), s1) [Event.procEnd i] = some (none, s1) := by
    rw [serRun_cons_some _ _ _ _ (serStep_procEnd i snap s1)]
    rfl
  cases fr with
  | pass =>
    refine ⟨s1, ?_, ?_⟩
    · show serRun (none, seen)
          (Event.procBegin i snap ::
            (evs ++ (commitTransition m1 t).2 ++ [Event.procEnd i])) =
        some (none, s1)
      rw [serRun_cons_some _ _ _ _ (serStep_procBegin i snap seen hi),
        List.append_assoc, serRun_append_some _ _ _ _ hevs]
      have hc : serRun (some (i, snap), s1) (commitTransition m1 t).2 =
          some (some (i, snap), s1) := rfl
      rw [serRun_append_some _ _ _ _ hc]
      exact hend
    · show PendSeen (commitTransition m1 t).1 s1
      intro q hq
      rw [commitTransition_pending] at hq
      exact hp1 q hq
  | fail r =>
    refine ⟨s1, ?_, hp1⟩
    show serRun (none, seen)
        (Event.procBegin i snap :: (evs ++ [Event.procEnd i])) = some (none, s1)
    rw [serRun_cons_some _ _ _ _ (serStep_procBegin i snap seen hi),
      serRun_append_some _ _ _ _ hevs]
    exact hend
  | threw =>
    refine ⟨s1, ?_, ?_⟩
    · show serRun (none, seen)
          (Event.procBegin i snap ::
            (evs ++ (handleUnknownError m1).2 ++ [Event.procEnd i])) =
        some (none, s1)
      rw [serRun_cons_some _ _ _ _ (serStep_procBegin i snap seen hi),
        List.append_assoc, serRun_append_some _ _ _ _ hevs]
      have hu : serRun (some (i, snap), s1) (handleUnknownError m1).2 =
          some (some (i, snap), s1) := by
        rw [handleUnknownError_snd]
        rfl
      rw [serRun_append_some _ _ _ _ hu]
      exact hend
    · show PendSeen (handleUnknownError m1).1 s1
      intro q hq
      rw [handleUnknownError_pending] at hq
      exact absurd hq (List.not_mem_nil q)

theorem processOne_ser (m : Machine S P) (i : Nat) (t : StateTransition S P)
    (seen : List Nat) (hi : i ∈ seen) (hps : PendSeen m seen) :
    ∃ seen2, serRun (none, seen) (processOne m i t).2.1 = some (none, seen2) ∧
      PendSeen (processOne m i t).1 seen2 := by
  have hdrop : serRun (none, seen)
      [Event.procBegin i m.committed, Event.procEnd i] = some (none, seen) := by
    rw [serRun_cons_some _ _ _ _ (serStep_procBegin i m.committed seen hi)]
    rw [serRun_cons_some _ _ _ _ (serStep_procEnd i m.committed seen)]
    rfl
  unfold processOne
  dsimp only
  split
  · exact ⟨seen, hdrop, hps⟩
  next d hd =>
    split
    · obtain ⟨s1, hr, hp⟩ := updateFilter_ser m t d i seen hps
      exact finishProcess_ser _ i t m.committed _ _ seen s1 hi hr hp
    · obtain ⟨s1, hr, hp⟩ := changeFilter_ser m d i seen hps
      exact finishProcess_ser _ i t m.committed _ _ seen s1 hi hr hp
    all_goals exact ⟨seen, hdrop, hps⟩

theorem drainAll_ser (fuel : Nat) (m : Machine S P) (seen : List Nat)
    (hps : PendSeen m seen) :
    ∃ seen2, serRun (none, seen) (drainAll fuel m).2 = some (none, seen2) ∧
      PendSeen (drainAll fuel m).1 seen2 := by
  induction fuel generalizing m seen with
  | zero => exact ⟨seen, rfl, hps⟩
  | succ n ih =>
    unfold drainAll
    split
    · exact ⟨seen, rfl, hps⟩
    next i t rest heq =>
      dsimp only
      have hi : i ∈ seen := hps (i, t) (by rw [heq]; exact List.mem_cons_self _ _)
      have hrest : PendSeen { m with pending := rest } seen := by
        intro q hq
        exact hps q (by rw [heq]; exact List.mem_cons_of_mem _ hq)
      obtain ⟨s1, hr1, hp1⟩ := processOne_ser { m with pending := rest } i t seen hi hrest
      obtain ⟨s2, hr2, hp2⟩ := ih _ s1 hp1
      refine ⟨s2, ?_, hp2⟩
      rw [serRun_append_some _ _ _ _ hr1]
      exact hr2

theorem resetInternalObservables_pending (m : Machine S P) (rd : StateTransition S P)
    (lr : Bool) : (resetInternalObservables m rd lr).pending = [] := by
  unfold resetInternalObservables
  dsimp only
  split
  · rw [writeToDebugLog_pending]
  · rfl

theorem runOp_ser (fuel : Nat) (m : Machine S P) (op : FsmOp S P) (seen : List Nat)
    (hps : PendSeen m seen) :
    ∃ seen2, serRun (none, seen) (runOp fuel m op).2 = some (none, seen2) ∧
      PendSeen (runOp fuel m op).1 seen2 := by
  cases op with
  | submitUpdate d =>
    simp only [runOp]
    split
    · exact submitTransition_ser m _ _ none seen hps
    · dsimp only
      obtain ⟨s1, hr1, hp1⟩ := submitTransition_ser m _ _ none seen hps
      obtain ⟨s2, hr2, hp2⟩ := drainAll_ser fuel _ s1 hp1
      refine ⟨s2, ?_, hp2⟩
      rw [serRun_append_some _ _ _ _ hr1]
      exact hr2
  | submitChange d =>
    simp only [runOp]
    split
    · exact submitTransition_ser m _ _ none seen hps
    · dsimp only
      obtain ⟨s1, hr1, hp1⟩ := submitTransition_ser m _ _ none seen hps
      obtain ⟨s2, hr2, hp2⟩ := drainAll_ser fuel _ s1 hp1
      refine ⟨s2, ?_, hp2⟩
      rw [serRun_append_some _ _ _ _ hr1]
      exact hr2
  | overrideOp o resetLog =>
    simp only [runOp]
    split
    · exact ⟨seen, handleTransitionRejection_serRun _ _ _,
        handleTransitionRejection_pendSeen hps⟩
    · split
      · exact ⟨seen, rfl, hps⟩
      · dsimp only
        refine ⟨seen, ?_, ?_⟩
        · refine serRun_neutral _ _ ?_
          intro e he
          rcases List.mem_append.mp he with h | h
          · rcases List.mem_cons.mp h with rfl | h2
            · rfl
            · rw [List.mem_singleton.mp h2]; rfl
          · split at h
            · rw [List.mem_singleton.mp h]; rfl
            · exact absurd h (List.not_mem_nil e)
        · intro q hq
          simp only [writeToDebugLog_pending] at hq
          split at hq
          · rw [capDebugLogLength_pending, resetInternalObservables_pending] at hq
            exact absurd hq (List.not_mem_nil q)
          · rw [resetInternalObservables_pending] at hq
            exact absurd hq (List.not_mem_nil q)
  | destroyOp =>
    simp only [runOp]
    split
    · exact ⟨seen, rfl, hps⟩
    · exact ⟨seen, rfl, hps⟩

theorem runOps_ser (fuel : Nat) (m : Machine S P) (ops : List (FsmOp S P))
    (seen : List Nat) (hps : PendSeen m seen) :
    ∃ seen2, serRun (none, seen) (runOps fuel m ops).2 = some (none, seen2) ∧
      PendSeen (runOps fuel m ops).1 seen2 := by
  induction ops generalizing m seen with
  | nil => exact ⟨seen, rfl, hps⟩
  | cons op rest ih =>
    unfold runOps
    dsimp only
    obtain ⟨s1, hr1, hp1⟩ := runOp_ser fuel m op seen hps
    obtain ⟨s2, hr2, hp2⟩ := ih _ s1 hp1
    refine ⟨s2, ?_, hp2⟩
    rw [serRun_append_some _ _ _ _ hr1]
    exact hr2

theorem construct_pendingNil (sm : StateMap S P) (pcfg : PartialFsmConfig S P)
    (dev : Bool) : (construct sm pcfg dev).1.pending = [] := by
  unfold construct
  dsimp only
  rw [writeToDebugLog_pending]

theorem construct_serRun (sm : StateMap S P) (pcfg : PartialFsmConfig S P) (dev : Bool)
    (st : Option (Nat × StateTransition S P) × List Nat) :
    serRun st (construct sm pcfg dev).2 = some st := by
  refine serRun_neutral _ _ ?_
  intro e he
  simp only [construct] at he
  split at he
  · split at he
    · rw [List.mem_singleton.mp he]; rfl
    · exact absurd he (List.not_mem_nil e)
  · exact absurd he (List.not_mem_nil e)

/-- Claim C3: over any run, the ghost trace passes the serialization
check: processing blocks never nest or overlap, so a request submitted
synchronously from inside a hook while another request is being
processed (its enqueued event falls inside the enclosing procBegin or
procEnd block) begins processing only after the enclosing request has
fully settled by commit, rejection or crash recovery; a block only
starts for an id already enqueued; and every hook invocation observes
exactly the committed snapshot captured when its enclosing block
started, never the effect of the hook's own re-entrant submission. -/
theorem claim_C3 (sm : StateMap S P) (pcfg : PartialFsmConfig S P) (dev : Bool)
    (fuel : Nat) (ops : List (FsmOp S P)) :
    serOk ((construct sm pcfg dev).2 ++
      (runOps fuel (construct sm pcfg dev).1 ops).2) = true := by
  have hp0 : PendSeen (construct sm pcfg dev).1 [] := by
    intro q hq
    rw [construct_pendingNil] at hq
    exact absurd hq (List.not_mem_nil q)
  obtain ⟨s2, hr2, _⟩ := runOps_ser fuel (construct sm pcfg dev).1 ops [] hp0
  unfold serOk
  rw [serRun_append_some _ _ _ _ (construct_serRun sm pcfg dev (none, [])), hr2]

end FsmRx
